import Mathlib

/-!
Shallow embedding of the mediasoup signaling server
(apps/server/src/mediasoup-server.ts) and verification of its
specification claims.

Modelling conventions:
* WebSocket connections are identified by natural numbers (`ConnId`).
* Worker-assigned handles (routers, audio level observers, transports,
  producers, consumers) are identified by natural numbers allocated from a
  monotone counter `nextId` in the state; this models the external media
  worker handing out fresh ids.
* The three process-wide registries (`rooms`, `peerSocketMap`,
  `peerRoomMap`) are modelled as functions to `Option`, mirroring the JS
  `Record` / `Map` get/set/delete interface (they are never iterated in
  the source).
* `Room.peers`, `Peer.producers` and `Peer.consumers` are association
  lists because the source iterates them (`Object.values(...)`,
  `Map.forEach`) and iteration order is observable in the emitted frames.
  JS objects and `Map`s keep a key at its original position on
  re-assignment, which `insertA` reproduces; keys are unique in JS, so
  JS object mutation through a reference is modelled as value replacement
  at the key where the object was found.
* Calls into the media worker that close a handle are recorded in the
  ghost field `closedIds`; frames written to sockets and
  `transport.connect` worker calls are collected in an `Output` list.
-/

abbrev ConnId := Nat

inductive MediaKind where
  | audio
  | video
deriving DecidableEq, Repr

inductive ProducerSource where
  | mic
  | webcam
  | screen
deriving DecidableEq, Repr

inductive ConnState where
  | new
  | connecting
  | connected
  | disconnected
deriving DecidableEq, Repr

/-- Model of the `MyProducer` record of the source.  Note: the source
record has fields `id`, `source`, `producer` (the worker handle, whose
`kind` we keep) and `paused`; there is no `muted` field. -/
structure MyProducer where
  id : Nat
  source : ProducerSource
  kind : MediaKind
  paused : Bool
deriving DecidableEq, Repr

/-- Model of the `MyConsumer` record: `peerId` is the upstream producer
owner, `producerId` the upstream producer, `id` the worker consumer id. -/
structure MyConsumer where
  id : Nat
  peerId : String
  producerId : Nat
deriving DecidableEq, Repr

/-- Model of `MyPeer`.  `conn` is the owning WebSocket. -/
structure MyPeer where
  id : String
  displayName : String
  conn : ConnId
  connectionState : ConnState
  sendTransport : Option Nat
  recvTransport : Option Nat
  producers : List (Nat × MyProducer)
  consumers : List (Nat × MyConsumer)
deriving DecidableEq, Repr

/-- Model of `MyRoom`: a router handle, an audio level observer handle and
the peers record (peerId keyed). -/
structure MyRoom where
  id : String
  router : Nat
  audioLevelObserver : Nat
  peers : List (String × MyPeer)
deriving DecidableEq, Repr

/-- The process-wide server state: the three registries of the source
(`rooms`, `peerSocketMap`, `peerRoomMap`), plus the environment model:
which connections are currently open, the worker id allocator, and the
ghost list of worker handles that have been closed. -/
structure ServerState where
  rooms : String → Option MyRoom
  peerSocketMap : ConnId → Option String
  peerRoomMap : String → Option String
  openConns : ConnId → Bool
  nextId : Nat
  closedIds : List Nat

/-- Association list lookup (first match), modelling JS object / Map get. -/
def lookupA {κ β : Type} [DecidableEq κ] : List (κ × β) → κ → Option β
  | [], _ => none
  | (k', v) :: t, k => if k' = k then some v else lookupA t k

/-- Association list insert: replaces the value at an existing key in
place (JS keeps the key position on re-assignment), appends otherwise. -/
def insertA {κ β : Type} [DecidableEq κ] : List (κ × β) → κ → β → List (κ × β)
  | [], k, v => [(k, v)]
  | (k', v') :: t, k, v => if k' = k then (k, v) :: t else (k', v') :: insertA t k v

/-- Association list delete, modelling JS `delete obj[k]` / `Map.delete`. -/
def eraseA {κ β : Type} [DecidableEq κ] : List (κ × β) → κ → List (κ × β)
  | [], _ => []
  | (k', v') :: t, k => if k' = k then t else (k', v') :: eraseA t k

/-- Update the value stored at a key, modelling JS mutation of the object
found at that key. -/
def updateAt {κ β : Type} [DecidableEq κ] (l : List (κ × β)) (k : κ) (f : β → β) :
    List (κ × β) :=
  l.map (fun p => if p.1 = k then (p.1, f p.2) else p)

/-- Function-map set, modelling `Map.set` / `record[k] = v`. -/
def setF {α β : Type} [DecidableEq α] (m : α → Option β) (k : α) (v : β) :
    α → Option β :=
  fun x => if x = k then some v else m x

/-- Function-map delete, modelling `Map.delete` / `delete record[k]`. -/
def delF {α β : Type} [DecidableEq α] (m : α → Option β) (k : α) :
    α → Option β :=
  fun x => if x = k then none else m x

/-- Peer summary in a `joinRoomResponse` (`peers` array element). -/
structure PeerInfo where
  id : String
  displayName : String
  connectionState : ConnState
deriving DecidableEq, Repr

/-- Producer summary in a `joinRoomResponse` (`producers` array element)
and payload of a `newProducer` notification. -/
structure ProducerInfo where
  id : Nat
  peerId : String
  kind : MediaKind
  source : ProducerSource
  displayName : String
deriving DecidableEq, Repr

/-- Frames the server writes to a socket.  `rtpCapabilities` of a
`joinRoomResponse` is represented by the router id whose capabilities are
returned; opaque ICE / DTLS / RTP parameter payloads are omitted. -/
inductive ServerMsg where
  | createRoomResponse (reqId : Option String) (success : Bool)
  | joinRoomResponse (reqId : Option String) (rtpCapabilities : Nat)
      (peers : List PeerInfo) (producers : List ProducerInfo)
  | createWebRtcTransportResponse (reqId : Option String) (id : Nat)
  | connectWebRtcTransportResponse (reqId : Option String) (connected : Bool)
  | produceResponse (reqId : Option String) (id : Nat)
  | consumeResponse (reqId : Option String) (id : Nat) (producerId : Nat)
      (kind : MediaKind) (peerId : String) (displayName : String)
      (source : ProducerSource)
  | pauseProducerResponse (reqId : Option String) (success : Bool)
  | resumeProducerResponse (reqId : Option String) (success : Bool)
  | pong (reqId : Option String)
  | peerJoined (peerId : String) (displayName : String)
  | peerLeft (peerId : String) (displayName : String)
  | newProducer (info : ProducerInfo)
  | producerClosed (peerId : String) (producerId : Nat)
  | errorMsg (reqId : Option String) (error : String)
  | errorOnly (error : String)
deriving DecidableEq, Repr

/-- Observable effects of one handler run: frames sent on sockets, and
`transport.connect` calls issued to the media worker. -/
inductive Output where
  | send (c : ConnId) (m : ServerMsg)
  | connectTransport (tid : Nat)
deriving DecidableEq, Repr

/-- Parsed client requests, one constructor per `case` of the message
switch.  `setProducerMuted` is listed because clients send it, but the
server switch has no case for it, so the dispatcher maps it to the
default branch.  `unknown` stands for any other unrecognized `type`. -/
inductive ClientMsg where
  | createRoom (reqId : Option String) (roomId : String)
  | joinRoom (reqId : Option String) (roomId peerId : String)
      (displayName : Option String)
  | createWebRtcTransport (reqId : Option String) (direction : Option String)
  | connectWebRtcTransport (reqId : Option String) (direction : Option String)
      (transportId : Option Nat)
  | produce (reqId : Option String) (kind : MediaKind)
      (source : Option ProducerSource)
  | consume (reqId : Option String) (producerId : Nat)
  | pauseProducer (reqId : Option String) (producerId : Nat)
  | resumeProducer (reqId : Option String) (producerId : Nat)
  | setProducerMuted (reqId : Option String) (producerId : Nat) (muted : Bool)
  | unknown (reqId : Option String)
deriving DecidableEq, Repr

/-- External events driving the server: a socket opening, a parsed JSON
frame, an unparseable frame, a socket closing. -/
inductive Event where
  | connect (c : ConnId)
  | request (c : ConnId) (m : ClientMsg)
  | badFrame (c : ConnId)
  | disconnect (c : ConnId)
deriving DecidableEq, Repr

/-- Initial process state: empty registries, no open connections, no
worker handles allocated or closed. -/
def initialState : ServerState where
  rooms := fun _ => none
  peerSocketMap := fun _ => none
  peerRoomMap := fun _ => none
  openConns := fun _ => false
  nextId := 0
  closedIds := []

/-- `createRoom(roomId)` of the source: return the cached room, or create
a router and an audio level observer on it and register the room.  The
two worker handles receive fresh ids from the allocator. -/
def createRoom (s : ServerState) (roomId : String) : ServerState × MyRoom :=
  match s.rooms roomId with
  | some room => (s, room)
  | none =>
    let room : MyRoom :=
      { id := roomId
        router := s.nextId
        audioLevelObserver := s.nextId + 1
        peers := [] }
    ({ s with rooms := setF s.rooms roomId room, nextId := s.nextId + 2 }, room)

/-- Resolution path of `getPeerFromSocket(ws)`: socket to peerId, peerId
to roomId, roomId to room, peerId to the peer object inside that room.
Returns the location (roomId key, peer key) at which the peer object was
found together with the peer, so that mutations through the JS object
reference can be applied at that location. -/
def peerLoc (s : ServerState) (c : ConnId) : Option (String × String × MyPeer) :=
  match s.peerSocketMap c with
  | none => none
  | some pid =>
    match s.peerRoomMap pid with
    | none => none
    | some rid =>
      match s.rooms rid with
      | none => none
      | some room =>
        match lookupA room.peers pid with
        | none => none
        | some peer => some (rid, pid, peer)

/-- `getPeerFromSocket` of the source. -/
def getPeerFromSocket (s : ServerState) (c : ConnId) : Option MyPeer :=
  (peerLoc s c).map (fun x => x.2.2)

/-- Replace the peer object stored at `(rid, pid)` by its image under
`f`, modelling JS mutation of the object found by `getPeerFromSocket`. -/
def updatePeerInRoom (s : ServerState) (rid pid : String) (f : MyPeer → MyPeer) :
    ServerState :=
  match s.rooms rid with
  | none => s
  | some room =>
    { s with rooms := setF s.rooms rid { room with peers := updateAt room.peers pid f } }

/-- Recipients of a broadcast that excludes the acting peer: every peer
object in the room whose id differs from `exceptId` and whose socket is
open. -/
def otherOpenPeers (peers : List (String × MyPeer)) (exceptId : String)
    (openConns : ConnId → Bool) : List MyPeer :=
  (peers.map Prod.snd).filter (fun p => p.id != exceptId && openConns p.conn)

/-- The `case "createRoom"` handler. -/
def handleCreateRoom (s : ServerState) (c : ConnId) (reqId : Option String)
    (roomId : String) : ServerState × List Output :=
  let s1 := (createRoom s roomId).1
  (s1, [Output.send c (ServerMsg.createRoomResponse reqId true)])

/-- The `case "joinRoom"` handler.  The source calls `createRoom`, then
`createPeer` (which registers the peer object in the room and in both
registries), sets the peer state to connecting, snapshots the other
peers' producers, broadcasts `peerJoined` to the other open peers, sends
the response, and finally sets the peer state to connected.  The emitted
frames are computed from the room as it stands after the peer was added;
the stored room holds the connected peer record. -/
def handleJoinRoom (s : ServerState) (c : ConnId) (reqId : Option String)
    (roomId pid : String) (displayName : Option String) :
    ServerState × List Output :=
  let dn := displayName.getD "Anonymous"
  let res := createRoom s roomId
  let s1 := res.1
  let room0 := res.2
  let peerC : MyPeer :=
    { id := pid
      displayName := dn
      conn := c
      connectionState := ConnState.connecting
      sendTransport := none
      recvTransport := none
      producers := []
      consumers := [] }
  let peers2 := insertA room0.peers pid peerC
  let othersAll := (peers2.map Prod.snd).filter (fun p => p.id != pid)
  let existingProducers := othersAll.flatMap (fun op =>
    op.producers.map (fun q =>
      ProducerInfo.mk q.2.id op.id q.2.kind q.2.source op.displayName))
  let joinedMsgs := (othersAll.filter (fun p => s.openConns p.conn)).map
    (fun p => Output.send p.conn (ServerMsg.peerJoined pid dn))
  let resp := Output.send c (ServerMsg.joinRoomResponse reqId room0.router
    (othersAll.map (fun p => PeerInfo.mk p.id p.displayName p.connectionState))
    existingProducers)
  let peers3 := insertA room0.peers pid { peerC with connectionState := ConnState.connected }
  let s2 : ServerState :=
    { s1 with
      rooms := setF s1.rooms roomId { room0 with peers := peers3 }
      peerSocketMap := setF s1.peerSocketMap c pid
      peerRoomMap := setF s1.peerRoomMap pid roomId }
  (s2, joinedMsgs ++ [resp])

/-- The `case "createWebRtcTransport"` handler.  The transport slot is
chosen by `data.direction === "recv"`; any other value, or a missing
direction, stores the new transport in the send slot. -/
def handleCreateWebRtcTransport (s : ServerState) (c : ConnId)
    (reqId : Option String) (direction : Option String) :
    ServerState × List Output :=
  match peerLoc s c with
  | none => (s, [Output.send c (ServerMsg.errorMsg reqId "Peer not found")])
  | some (rid, pid, peer) =>
    match s.peerRoomMap peer.id with
    | none => (s, [Output.send c (ServerMsg.errorMsg reqId "Room not found")])
    | some rid2 =>
      match s.rooms rid2 with
      | none => (s, [Output.send c (ServerMsg.errorMsg reqId "Room not found")])
      | some _room2 =>
        let tid := s.nextId
        let s1 := updatePeerInRoom { s with nextId := s.nextId + 1 } rid pid
          (fun p =>
            if direction = some "recv" then { p with recvTransport := some tid }
            else { p with sendTransport := some tid })
        (s1, [Output.send c (ServerMsg.createWebRtcTransportResponse reqId tid)])

/-- The `case "connectWebRtcTransport"` handler.  The transport to
connect is selected solely by `data.direction === "recv"`; the
`transportId` field of the request is never read. -/
def handleConnectWebRtcTransport (s : ServerState) (c : ConnId)
    (reqId : Option String) (direction : Option String)
    (_transportId : Option Nat) : ServerState × List Output :=
  match peerLoc s c with
  | none => (s, [Output.send c (ServerMsg.errorMsg reqId "Peer not found")])
  | some (_rid, _pid, peer) =>
    match (if direction = some "recv" then peer.recvTransport else peer.sendTransport) with
    | none => (s, [Output.send c (ServerMsg.errorMsg reqId "Transport not found")])
    | some tid =>
      (s, [Output.connectTransport tid,
           Output.send c (ServerMsg.connectWebRtcTransportResponse reqId true)])

/-- The `case "produce"` handler.  The producer id is assigned by the
worker; the record is stored in the calling peer's `producers` map; the
response frame is sent before the `newProducer` broadcast.  The broadcast
recipients are computed from the room looked up via the peer's id; the
mutation only touches the calling peer's `producers` map, which changes
neither the recipient set nor the payload. -/
def handleProduce (s : ServerState) (c : ConnId) (reqId : Option String)
    (kind : MediaKind) (source : Option ProducerSource) :
    ServerState × List Output :=
  match peerLoc s c with
  | none => (s, [Output.send c (ServerMsg.errorMsg reqId "Peer or transport not found")])
  | some (rid, pid, peer) =>
    match peer.sendTransport with
    | none => (s, [Output.send c (ServerMsg.errorMsg reqId "Peer or transport not found")])
    | some _st =>
      match s.peerRoomMap peer.id with
      | none => (s, [Output.send c (ServerMsg.errorMsg reqId "Room not found")])
      | some rid2 =>
        match s.rooms rid2 with
        | none => (s, [Output.send c (ServerMsg.errorMsg reqId "Room not found")])
        | some room2 =>
          let detectedSource := source.getD
            (if kind = MediaKind.audio then ProducerSource.mic else ProducerSource.webcam)
          let prodId := s.nextId
          let myProducer : MyProducer :=
            { id := prodId, source := detectedSource, kind := kind, paused := false }
          let s1 := updatePeerInRoom { s with nextId := s.nextId + 1 } rid pid
            (fun p => { p with producers := insertA p.producers prodId myProducer })
          let info : ProducerInfo :=
            ProducerInfo.mk prodId peer.id kind detectedSource peer.displayName
          (s1, Output.send c (ServerMsg.produceResponse reqId prodId) ::
            (otherOpenPeers room2.peers peer.id s.openConns).map
              (fun p => Output.send p.conn (ServerMsg.newProducer info)))

/-- The producer search of `case "consume"`: `forEach` over all peer
objects of the room, keeping the last peer whose `producers` map holds
`producerId`.  The calling peer is not excluded. -/
def findProducer (peers : List (String × MyPeer)) (producerId : Nat) :
    Option (MyPeer × MyProducer) :=
  peers.foldl (fun acc kp =>
    match lookupA kp.2.producers producerId with
    | some mp => some (kp.2, mp)
    | none => acc) none

/-- The `case "consume"` handler.  On success the consumer record is
stored in the calling peer's `consumers` map keyed by the upstream
producer id, and the response carries the upstream peer's id and display
name.  The response is built from the target peer and producer as found
before the mutation; the mutation only touches the calling peer's
`consumers` map, which none of the response fields read. -/
def handleConsume (s : ServerState) (c : ConnId) (reqId : Option String)
    (producerId : Nat) : ServerState × List Output :=
  match peerLoc s c with
  | none => (s, [Output.send c (ServerMsg.errorMsg reqId "Peer or transport not found")])
  | some (rid, pid, peer) =>
    match peer.recvTransport with
    | none => (s, [Output.send c (ServerMsg.errorMsg reqId "Peer or transport not found")])
    | some _rt =>
      match s.peerRoomMap peer.id with
      | none => (s, [Output.send c (ServerMsg.errorMsg reqId "Room not found")])
      | some rid2 =>
        match s.rooms rid2 with
        | none => (s, [Output.send c (ServerMsg.errorMsg reqId "Room not found")])
        | some room2 =>
          match findProducer room2.peers producerId with
          | none => (s, [Output.send c (ServerMsg.errorMsg reqId "Producer not found")])
          | some (targetPeer, myProducer) =>
            let consId := s.nextId
            let myConsumer : MyConsumer :=
              { id := consId, peerId := targetPeer.id, producerId := myProducer.id }
            let s1 := updatePeerInRoom { s with nextId := s.nextId + 1 } rid pid
              (fun p => { p with consumers := insertA p.consumers myProducer.id myConsumer })
            (s1, [Output.send c (ServerMsg.consumeResponse reqId consId myProducer.id
              myProducer.kind targetPeer.id targetPeer.displayName myProducer.source)])

/-- The `case "pauseProducer"` handler. -/
def handlePauseProducer (s : ServerState) (c : ConnId) (reqId : Option String)
    (producerId : Nat) : ServerState × List Output :=
  match peerLoc s c with
  | none => (s, [Output.send c (ServerMsg.errorMsg reqId "Peer not found")])
  | some (rid, pid, peer) =>
    match lookupA peer.producers producerId with
    | none => (s, [Output.send c (ServerMsg.errorMsg reqId "Producer not found")])
    | some _mp =>
      let s1 := updatePeerInRoom s rid pid (fun p =>
        { p with producers :=
            updateAt p.producers producerId (fun mp => { mp with paused := true }) })
      (s1, [Output.send c (ServerMsg.pauseProducerResponse reqId true)])

/-- The `case "resumeProducer"` handler. -/
def handleResumeProducer (s : ServerState) (c : ConnId) (reqId : Option String)
    (producerId : Nat) : ServerState × List Output :=
  match peerLoc s c with
  | none => (s, [Output.send c (ServerMsg.errorMsg reqId "Peer not found")])
  | some (rid, pid, peer) =>
    match lookupA peer.producers producerId with
    | none => (s, [Output.send c (ServerMsg.errorMsg reqId "Producer not found")])
    | some _mp =>
      let s1 := updatePeerInRoom s rid pid (fun p =>
        { p with producers :=
            updateAt p.producers producerId (fun mp => { mp with paused := false }) })
      (s1, [Output.send c (ServerMsg.resumeProducerResponse reqId true)])

/-- `cleanupPeer(peerId)` of the source.  Closing `room.router` also
closes every object created on that router in the media worker, in
particular the room's audio level observer, so both handle ids are
recorded as closed when the emptied room is torn down. -/
def cleanupPeer (s : ServerState) (pid : String) : ServerState × List Output :=
  match s.peerRoomMap pid with
  | none => (s, [])
  | some rid =>
    match s.rooms rid with
    | none => (s, [])
    | some room =>
      match lookupA room.peers pid with
      | none => (s, [])
      | some peer =>
        let prodCloses := peer.producers.map (fun q => q.2.id)
        let prodMsgs := peer.producers.flatMap (fun q =>
          (otherOpenPeers room.peers pid s.openConns).map
            (fun p => Output.send p.conn (ServerMsg.producerClosed pid q.2.id)))
        let consCloses := peer.consumers.map (fun q => q.2.id)
        let transCloses :=
          (match peer.sendTransport with | some t => [t] | none => []) ++
          (match peer.recvTransport with | some t => [t] | none => [])
        let peersAfter := eraseA room.peers pid
        let leftMsgs := ((peersAfter.map Prod.snd).filter
            (fun p => s.openConns p.conn)).map
          (fun p => Output.send p.conn (ServerMsg.peerLeft pid peer.displayName))
        let closedBase := s.closedIds ++ prodCloses ++ consCloses ++ transCloses
        if peersAfter.isEmpty then
          ({ s with
              rooms := delF s.rooms rid
              peerSocketMap := delF s.peerSocketMap peer.conn
              peerRoomMap := delF s.peerRoomMap pid
              closedIds := closedBase ++ [room.router, room.audioLevelObserver] },
           prodMsgs ++ leftMsgs)
        else
          ({ s with
              rooms := setF s.rooms rid { room with peers := peersAfter }
              peerSocketMap := delF s.peerSocketMap peer.conn
              peerRoomMap := delF s.peerRoomMap pid
              closedIds := closedBase },
           prodMsgs ++ leftMsgs)

/-- The message switch of `ws.on("message")` for a successfully parsed
frame.  `setProducerMuted` has no case in the source switch and falls
through to the default `pong` branch, like any unrecognized type. -/
def handleMessage (s : ServerState) (c : ConnId) (m : ClientMsg) :
    ServerState × List Output :=
  match m with
  | ClientMsg.createRoom reqId roomId => handleCreateRoom s c reqId roomId
  | ClientMsg.joinRoom reqId roomId pid dn => handleJoinRoom s c reqId roomId pid dn
  | ClientMsg.createWebRtcTransport reqId dir =>
      handleCreateWebRtcTransport s c reqId dir
  | ClientMsg.connectWebRtcTransport reqId dir tid =>
      handleConnectWebRtcTransport s c reqId dir tid
  | ClientMsg.produce reqId kind src => handleProduce s c reqId kind src
  | ClientMsg.consume reqId producerId => handleConsume s c reqId producerId
  | ClientMsg.pauseProducer reqId producerId =>
      handlePauseProducer s c reqId producerId
  | ClientMsg.resumeProducer reqId producerId =>
      handleResumeProducer s c reqId producerId
  | ClientMsg.setProducerMuted reqId _ _ => (s, [Output.send c (ServerMsg.pong reqId)])
  | ClientMsg.unknown reqId => (s, [Output.send c (ServerMsg.pong reqId)])

/-- One external event.  An unparseable frame answers with the
`{error: "Invalid JSON"}` frame and changes nothing.  A socket close
marks the connection closed and runs `cleanupPeer` when the socket is
bound to a peer, exactly as the `ws.on("close")` handler does. -/
def step (s : ServerState) (e : Event) : ServerState × List Output :=
  match e with
  | Event.connect c =>
      ({ s with openConns := fun x => if x = c then true else s.openConns x }, [])
  | Event.request c m => handleMessage s c m
  | Event.badFrame c => (s, [Output.send c (ServerMsg.errorOnly "Invalid JSON")])
  | Event.disconnect c =>
      let s1 : ServerState :=
        { s with openConns := fun x => if x = c then false else s.openConns x }
      match s1.peerSocketMap c with
      | some pid => cleanupPeer s1 pid
      | none => (s1, [])

/-- State after handling a sequence of events from the initial state. -/
def runTrace (evs : List Event) : ServerState :=
  evs.foldl (fun s e => (step s e).1) initialState

/-- Reachability under a filter on events: every state obtained from the
initial state by a sequence of events each permitted by `allow`. -/
inductive ReachableUnder (allow : ServerState → Event → Prop) : ServerState → Prop
  | init : ReachableUnder allow initialState
  | next {s : ServerState} (e : Event) :
      ReachableUnder allow s → allow s e → ReachableUnder allow (step s e).1

/-- Event filter admitting every event. -/
def AnyEvent (_ : ServerState) (_ : Event) : Prop := True

/-- Event filter admitting only joinRoom requests whose peerId is not yet
bound to a room and whose connection is not yet bound to a peer; all
other events are unrestricted. -/
def FreshJoin (s : ServerState) : Event → Prop
  | Event.request c (ClientMsg.joinRoom _ _ pid _) =>
      s.peerRoomMap pid = none ∧ s.peerSocketMap c = none
  | _ => True

/-- Event filter excluding `createRoom` requests. -/
def NoCreateRoom (_ : ServerState) : Event → Prop
  | Event.request _ (ClientMsg.createRoom _ _) => False
  | _ => True

/-- Mapping coherence, as claimed: every peer object P stored in a
registered room has `peerRoomMap P.id` equal to that room's id and
`peerSocketMap P.conn` equal to `P.id`, and no differently-keyed room
holds a peer object with the same id. -/
def Coherent (s : ServerState) : Prop :=
  ∀ rid room, s.rooms rid = some room →
    ∀ kp ∈ room.peers,
      s.peerRoomMap kp.2.id = some room.id ∧
      s.peerSocketMap kp.2.conn = some kp.2.id ∧
      ∀ rid' room', s.rooms rid' = some room' → rid' ≠ rid →
        ∀ kp' ∈ room'.peers, kp'.2.id ≠ kp.2.id

/-- Strengthened state invariant used to prove `Coherent` inductively. -/
structure WF (s : ServerState) : Prop where
  room_id : ∀ rid room, s.rooms rid = some room → room.id = rid
  keys_nodup : ∀ rid room, s.rooms rid = some room → (room.peers.map Prod.fst).Nodup
  key_eq_id : ∀ rid room, s.rooms rid = some room → ∀ kp ∈ room.peers, kp.1 = kp.2.id
  to_room : ∀ rid room, s.rooms rid = some room →
    ∀ kp ∈ room.peers, s.peerRoomMap kp.2.id = some rid
  to_sock : ∀ rid room, s.rooms rid = some room →
    ∀ kp ∈ room.peers, s.peerSocketMap kp.2.conn = some kp.2.id
  sock_back : ∀ c pid, s.peerSocketMap c = some pid →
    ∃ rid room P, s.peerRoomMap pid = some rid ∧ s.rooms rid = some room ∧
      lookupA room.peers pid = some P ∧ P.conn = c

/-- Room-liveness property of the claim: every room present in the
registry has a non-empty peers map. -/
def RoomsNonempty (s : ServerState) : Prop :=
  ∀ rid room, s.rooms rid = some room → room.peers ≠ []

/-- A peer record as stored after a completed joinRoom with no
transports, producers or consumers yet. -/
def freshPeer (pid dn : String) (c : ConnId) : MyPeer :=
  { id := pid
    displayName := dn
    conn := c
    connectionState := ConnState.connected
    sendTransport := none
    recvTransport := none
    producers := []
    consumers := [] }

/-- Trace for the coherence counterexample: the same peerId joins room
`A` on connection 0 and then room `B` on connection 1. -/
def c1BadTrace : List Event :=
  [Event.connect 0,
   Event.request 0 (ClientMsg.joinRoom (some "1") "A" "p" (some "A")),
   Event.connect 1,
   Event.request 1 (ClientMsg.joinRoom (some "2") "B" "p" (some "B"))]

/-- The stale record left in room `A` by `c1BadTrace`. -/
def c1RoomA : MyRoom :=
  { id := "A", router := 0, audioLevelObserver := 1,
    peers := [("p", freshPeer "p" "A" 0)] }

/-- Witness trace: one connection opens and joins a room with a fresh
peerId. -/
def c1GoodTrace : List Event :=
  [Event.connect 0,
   Event.request 0 (ClientMsg.joinRoom (some "1") "R" "p1" (some "A"))]

/-- Trace leaving a zero-peer room in the registry: a bare createRoom. -/
def c5Trace : List Event :=
  [Event.request 0 (ClientMsg.createRoom (some "1") "X")]

/-- Trace preparing the self-consume counterexample: one peer joins,
creates a send transport, produces audio (producer id 3), and creates a
receive transport. -/
def c3Prefix : List Event :=
  [Event.connect 0,
   Event.request 0 (ClientMsg.joinRoom (some "1") "R" "p1" (some "A")),
   Event.request 0 (ClientMsg.createWebRtcTransport (some "2") none),
   Event.request 0 (ClientMsg.produce (some "3") MediaKind.audio (some ProducerSource.mic)),
   Event.request 0 (ClientMsg.createWebRtcTransport (some "4") (some "recv"))]

/-- The peer record after `c3Prefix` and a consume of its own producer:
the consumers map holds a record whose upstream peerId is the peer
itself. -/
def c3PeerFinal : MyPeer :=
  { id := "p1"
    displayName := "A"
    conn := 0
    connectionState := ConnState.connected
    sendTransport := some 2
    recvTransport := some 4
    producers := [(3, { id := 3, source := ProducerSource.mic,
                        kind := MediaKind.audio, paused := false })]
    consumers := [(3, { id := 5, peerId := "p1", producerId := 3 })] }

/-- Trace preparing the duplicate-join counterexample: `p1` joins room
`R` on connection 0, then connection 1 opens. -/
def c4Prefix : List Event :=
  [Event.connect 0,
   Event.request 0 (ClientMsg.joinRoom (some "1") "R" "p1" (some "A")),
   Event.connect 1]

/-- The duplicate join request: connection 1 joins room `R` under the
already-taken peerId `p1`. -/
def c4Dup : Event :=
  Event.request 1 (ClientMsg.joinRoom (some "2") "R" "p1" (some "B"))

/-- Trace preparing the broadcast-order counterexample: `p1` is in room
`R` and a second connection opens. -/
def c6Prefix : List Event :=
  [Event.connect 0,
   Event.request 0 (ClientMsg.joinRoom (some "1") "R" "p1" (some "A")),
   Event.connect 1]

/-- The second join whose emitted frame order is under scrutiny. -/
def c6Join : Event :=
  Event.request 1 (ClientMsg.joinRoom (some "2") "R" "p2" (some "B"))

/-- No-self-consume property of the claim: no consumer record held by a
peer names that same peer as its upstream producer owner. -/
def NoSelfConsume (s : ServerState) : Prop :=
  ∀ rid room, s.rooms rid = some room → ∀ kp ∈ room.peers,
    ∀ q ∈ kp.2.consumers, q.2.peerId ≠ kp.2.id

/-- Full self-consume trace: `c3Prefix` followed by a consume request
naming the requesting peer's own producer. -/
def c3Trace : List Event :=
  c3Prefix ++ [Event.request 0 (ClientMsg.consume (some "5") 3)]

/-- The room after `c3Trace`. -/
def c3RoomFinal : MyRoom :=
  { id := "R", router := 0, audioLevelObserver := 1, peers := [("p1", c3PeerFinal)] }

/-- The single-peer room after `c1GoodTrace`, used for the empty-room
teardown witness. -/
def c2RoomR : MyRoom :=
  { id := "R", router := 0, audioLevelObserver := 1,
    peers := [("p1", freshPeer "p1" "A" 0)] }

/-- Trace after which peer `p1` has a send transport (id 2): join then
createWebRtcTransport with no direction field. -/
def c6ProdTrace : List Event :=
  [Event.connect 0,
   Event.request 0 (ClientMsg.joinRoom (some "1") "R" "p1" (some "A")),
   Event.request 0 (ClientMsg.createWebRtcTransport (some "2") none)]

/-- The peer record after `c6ProdTrace`. -/
def c6PeerSend : MyPeer :=
  { id := "p1"
    displayName := "A"
    conn := 0
    connectionState := ConnState.connected
    sendTransport := some 2
    recvTransport := none
    producers := []
    consumers := [] }

/-- The room after `c6ProdTrace`. -/
def c6RoomSend : MyRoom :=
  { id := "R", router := 0, audioLevelObserver := 1, peers := [("p1", c6PeerSend)] }

/-- The peer record after `c3Prefix`: send transport 2, receive
transport 4, one audio producer with id 3, no consumers yet. -/
def c3PeerMid : MyPeer :=
  { id := "p1"
    displayName := "A"
    conn := 0
    connectionState := ConnState.connected
    sendTransport := some 2
    recvTransport := some 4
    producers := [(3, { id := 3, source := ProducerSource.mic,
                        kind := MediaKind.audio, paused := false })]
    consumers := [] }

/-- The room after `c3Prefix`. -/
def c3RoomMid : MyRoom :=
  { id := "R", router := 0, audioLevelObserver := 1, peers := [("p1", c3PeerMid)] }

section AssocLemmas

variable {κ β : Type} [DecidableEq κ]

theorem lookupA_cons (k1 : κ) (v1 : β) (t : List (κ × β)) (k : κ) :
    lookupA ((k1, v1) :: t) k = if k1 = k then some v1 else lookupA t k := rfl

theorem insertA_cons (k1 : κ) (v1 : β) (t : List (κ × β)) (k : κ) (v : β) :
    insertA ((k1, v1) :: t) k v =
      if k1 = k then (k, v) :: t else (k1, v1) :: insertA t k v := rfl

theorem eraseA_cons (k1 : κ) (v1 : β) (t : List (κ × β)) (k : κ) :
    eraseA ((k1, v1) :: t) k = if k1 = k then t else (k1, v1) :: eraseA t k := rfl

theorem updateAt_cons (k1 : κ) (v1 : β) (t : List (κ × β)) (k : κ) (f : β → β) :
    updateAt ((k1, v1) :: t) k f =
      (if k1 = k then (k1, f v1) else (k1, v1)) :: updateAt t k f := by
  by_cases hk : k1 = k <;> simp [updateAt, hk]

theorem lookupA_mem {l : List (κ × β)} {k : κ} {v : β}
    (h : lookupA l k = some v) : (k, v) ∈ l := by
  induction l with
  | nil => simp [lookupA] at h
  | cons hd t ih =>
    obtain ⟨k1, v1⟩ := hd
    rw [lookupA_cons] at h
    by_cases hk : k1 = k
    · rw [if_pos hk] at h
      cases h
      subst hk
      exact List.mem_cons_self _ _
    · rw [if_neg hk] at h
      exact List.mem_cons_of_mem _ (ih h)

theorem mem_insertA {l : List (κ × β)} {k : κ} {v : β} {kp : κ × β}
    (h : kp ∈ insertA l k v) : kp = (k, v) ∨ kp ∈ l := by
  induction l with
  | nil => simpa [insertA] using h
  | cons hd t ih =>
    obtain ⟨k1, v1⟩ := hd
    rw [insertA_cons] at h
    by_cases hk : k1 = k
    · rw [if_pos hk] at h
      rcases List.mem_cons.1 h with h1 | h1
      · exact Or.inl h1
      · exact Or.inr (List.mem_cons_of_mem _ h1)
    · rw [if_neg hk] at h
      rcases List.mem_cons.1 h with h1 | h1
      · exact Or.inr (h1 ▸ List.mem_cons_self _ _)
      · rcases ih h1 with h2 | h2
        · exact Or.inl h2
        · exact Or.inr (List.mem_cons_of_mem _ h2)

theorem lookupA_insertA_self (l : List (κ × β)) (k : κ) (v : β) :
    lookupA (insertA l k v) k = some v := by
  induction l with
  | nil => simp [insertA, lookupA]
  | cons hd t ih =>
    obtain ⟨k1, v1⟩ := hd
    rw [insertA_cons]
    by_cases hk : k1 = k
    · rw [if_pos hk, lookupA_cons, if_pos rfl]
    · rw [if_neg hk, lookupA_cons, if_neg hk]
      exact ih

theorem lookupA_insertA_ne (l : List (κ × β)) {k k' : κ} (v : β)
    (h : k' ≠ k) : lookupA (insertA l k v) k' = lookupA l k' := by
  induction l with
  | nil =>
    have hkk : ¬ k = k' := fun hh => h hh.symm
    simp [insertA, lookupA, hkk]
  | cons hd t ih =>
    obtain ⟨k1, v1⟩ := hd
    rw [insertA_cons]
    by_cases hk : k1 = k
    · rw [if_pos hk, lookupA_cons, lookupA_cons,
        if_neg (fun hh : k = k' => h hh.symm), if_neg (fun hh : k1 = k' => h (hk ▸ hh).symm)]
    · rw [if_neg hk, lookupA_cons, lookupA_cons]
      by_cases hk' : k1 = k'
      · rw [if_pos hk', if_pos hk']
      · rw [if_neg hk', if_neg hk']
        exact ih

theorem insertA_of_not_mem {l : List (κ × β)} {k : κ} (v : β)
    (h : k ∉ l.map Prod.fst) : insertA l k v = l ++ [(k, v)] := by
  induction l with
  | nil => simp [insertA]
  | cons hd t ih =>
    obtain ⟨k1, v1⟩ := hd
    simp only [List.map_cons, List.mem_cons] at h
    push_neg at h
    rw [insertA_cons, if_neg (fun hh : k1 = k => h.1 hh.symm), ih h.2]
    rfl

theorem mem_eraseA {l : List (κ × β)} {k : κ} {kp : κ × β}
    (h : kp ∈ eraseA l k) : kp ∈ l := by
  induction l with
  | nil => simp [eraseA] at h
  | cons hd t ih =>
    obtain ⟨k1, v1⟩ := hd
    rw [eraseA_cons] at h
    by_cases hk : k1 = k
    · rw [if_pos hk] at h
      exact List.mem_cons_of_mem _ h
    · rw [if_neg hk] at h
      rcases List.mem_cons.1 h with h1 | h1
      · exact h1 ▸ List.mem_cons_self _ _
      · exact List.mem_cons_of_mem _ (ih h1)

theorem mem_eraseA_key_ne {l : List (κ × β)} {k : κ} {kp : κ × β}
    (hnd : (l.map Prod.fst).Nodup) (h : kp ∈ eraseA l k) : kp.1 ≠ k := by
  induction l with
  | nil => simp [eraseA] at h
  | cons hd t ih =>
    obtain ⟨k1, v1⟩ := hd
    simp only [List.map_cons, List.nodup_cons] at hnd
    rw [eraseA_cons] at h
    by_cases hk : k1 = k
    · rw [if_pos hk] at h
      intro hkp
      exact hnd.1 (by simpa [hkp, hk] using List.mem_map_of_mem Prod.fst h)
    · rw [if_neg hk] at h
      rcases List.mem_cons.1 h with h1 | h1
      · rw [h1]
        exact hk
      · exact ih hnd.2 h1

theorem lookupA_eraseA_ne (l : List (κ × β)) {k k' : κ}
    (h : k' ≠ k) : lookupA (eraseA l k) k' = lookupA l k' := by
  induction l with
  | nil => simp [eraseA]
  | cons hd t ih =>
    obtain ⟨k1, v1⟩ := hd
    rw [eraseA_cons]
    by_cases hk : k1 = k
    · rw [if_pos hk, lookupA_cons, if_neg (fun hh : k1 = k' => h (hk ▸ hh).symm)]
    · rw [if_neg hk, lookupA_cons, lookupA_cons]
      by_cases hk' : k1 = k'
      · rw [if_pos hk', if_pos hk']
      · rw [if_neg hk', if_neg hk']
        exact ih

theorem keys_eraseA_sublist (l : List (κ × β)) (k : κ) :
    ((eraseA l k).map Prod.fst).Sublist (l.map Prod.fst) := by
  induction l with
  | nil => simp [eraseA]
  | cons hd t ih =>
    obtain ⟨k1, v1⟩ := hd
    rw [eraseA_cons]
    by_cases hk : k1 = k
    · rw [if_pos hk]
      simp only [List.map_cons]
      exact List.sublist_cons_self _ _
    · rw [if_neg hk]
      simp only [List.map_cons]
      exact ih.cons₂ _

theorem nodup_keys_eraseA {l : List (κ × β)} (k : κ)
    (h : (l.map Prod.fst).Nodup) : ((eraseA l k).map Prod.fst).Nodup :=
  (keys_eraseA_sublist l k).nodup h

theorem keys_updateAt (l : List (κ × β)) (k : κ) (f : β → β) :
    (updateAt l k f).map Prod.fst = l.map Prod.fst := by
  induction l with
  | nil => simp [updateAt]
  | cons hd t ih =>
    obtain ⟨k1, v1⟩ := hd
    rw [updateAt_cons]
    by_cases hk : k1 = k
    · rw [if_pos hk]
      simp only [List.map_cons, ih]
    · rw [if_neg hk]
      simp only [List.map_cons, ih]

theorem mem_updateAt {l : List (κ × β)} {k : κ} {f : β → β} {kp : κ × β}
    (h : kp ∈ updateAt l k f) :
    ∃ q ∈ l, kp.1 = q.1 ∧ (kp.2 = q.2 ∨ kp.2 = f q.2) := by
  rcases List.mem_map.1 h with ⟨q, hq, hmap⟩
  by_cases hk : q.1 = k
  · rw [if_pos hk] at hmap
    exact ⟨q, hq, by rw [← hmap], Or.inr (by rw [← hmap])⟩
  · rw [if_neg hk] at hmap
    exact ⟨q, hq, by rw [hmap], Or.inl (by rw [hmap])⟩

theorem lookupA_updateAt (l : List (κ × β)) (k k₂ : κ) (f : β → β) :
    lookupA (updateAt l k f) k₂ =
      if k₂ = k then (lookupA l k₂).map f else lookupA l k₂ := by
  induction l with
  | nil => by_cases h : k₂ = k <;> simp [updateAt, lookupA, h]
  | cons hd t ih =>
    obtain ⟨k1, v1⟩ := hd
    rw [updateAt_cons]
    by_cases hk : k1 = k
    · rw [if_pos hk, lookupA_cons, lookupA_cons]
      by_cases hk2 : k1 = k₂
      · rw [if_pos hk2, if_pos hk2, if_pos (hk ▸ hk2 ▸ rfl : k₂ = k)]
        rfl
      · rw [if_neg hk2, if_neg hk2, ih]
    · rw [if_neg hk, lookupA_cons, lookupA_cons]
      by_cases hk2 : k1 = k₂
      · rw [if_pos hk2, if_pos hk2, if_neg (fun hh : k₂ = k => hk (hk2.symm ▸ hh ▸ rfl))]
      · rw [if_neg hk2, if_neg hk2, ih]

theorem lookupA_eq_none_iff (l : List (κ × β)) (k : κ) :
    lookupA l k = none ↔ k ∉ l.map Prod.fst := by
  induction l with
  | nil => simp [lookupA]
  | cons hd t ih =>
    obtain ⟨k1, v1⟩ := hd
    rw [lookupA_cons]
    by_cases hk : k1 = k
    · simp [hk]
    · have hkk : ¬ k = k1 := fun hh => hk hh.symm
      simp [hk, ih, hkk]

theorem nodup_keys_insertA {l : List (κ × β)} (k : κ) (v : β)
    (h : (l.map Prod.fst).Nodup) : ((insertA l k v).map Prod.fst).Nodup := by
  induction l with
  | nil => simp [insertA]
  | cons hd t ih =>
    obtain ⟨k1, v1⟩ := hd
    simp only [List.map_cons, List.nodup_cons] at h
    rw [insertA_cons]
    by_cases hk : k1 = k
    · rw [if_pos hk]
      simp only [List.map_cons, List.nodup_cons]
      exact ⟨hk ▸ h.1, h.2⟩
    · rw [if_neg hk]
      simp only [List.map_cons, List.nodup_cons]
      refine ⟨?_, ih h.2⟩
      intro hc
      rcases List.mem_map.1 hc with ⟨q, hq, hfst⟩
      rcases mem_insertA hq with h2 | h2
      · exact hk (by rw [← hfst, h2])
      · exact h.1 (hfst ▸ List.mem_map_of_mem Prod.fst h2)

end AssocLemmas

theorem setF_self {α β : Type} [DecidableEq α] (m : α → Option β) (k : α) (v : β) :
    setF m k v k = some v := by
  simp [setF]

theorem setF_ne {α β : Type} [DecidableEq α] (m : α → Option β) (k : α) (v : β)
    {x : α} (h : x ≠ k) : setF m k v x = m x := by
  simp [setF, h]

theorem delF_self {α β : Type} [DecidableEq α] (m : α → Option β) (k : α) :
    delF m k k = none := by
  simp [delF]

theorem delF_ne {α β : Type} [DecidableEq α] (m : α → Option β) (k : α)
    {x : α} (h : x ≠ k) : delF m k x = m x := by
  simp [delF, h]

theorem coherent_of_wf {s : ServerState} (h : WF s) : Coherent s := by
  intro rid room hroom kp hkp
  refine ⟨h.room_id rid room hroom ▸ h.to_room rid room hroom kp hkp,
    h.to_sock rid room hroom kp hkp, ?_⟩
  intro rid' room' hroom' hne kp' hkp' heq
  have h1 := h.to_room rid room hroom kp hkp
  have h2 := h.to_room rid' room' hroom' kp' hkp'
  rw [heq, h1] at h2
  exact hne (Option.some.inj h2.symm)

theorem wf_initial : WF initialState where
  room_id := by intro rid room h; simp [initialState] at h
  keys_nodup := by intro rid room h; simp [initialState] at h
  key_eq_id := by intro rid room h; simp [initialState] at h
  to_room := by intro rid room h; simp [initialState] at h
  to_sock := by intro rid room h; simp [initialState] at h
  sock_back := by intro c pid h; simp [initialState] at h

theorem wf_of_fields {s s' : ServerState} (h : WF s)
    (hr : s'.rooms = s.rooms) (hpr : s'.peerRoomMap = s.peerRoomMap)
    (hps : s'.peerSocketMap = s.peerSocketMap) : WF s' where
  room_id := by rw [hr]; exact h.room_id
  keys_nodup := by rw [hr]; exact h.keys_nodup
  key_eq_id := by rw [hr]; exact h.key_eq_id
  to_room := by rw [hr, hpr]; exact h.to_room
  to_sock := by rw [hr, hps]; exact h.to_sock
  sock_back := by rw [hr, hpr, hps]; exact h.sock_back

theorem wf_set_empty_room {s : ServerState} (h : WF s) {roomId : String}
    {r o : Nat} (hnone : s.rooms roomId = none) {s' : ServerState}
    (hr : s'.rooms = setF s.rooms roomId ⟨roomId, r, o, []⟩)
    (hpr : s'.peerRoomMap = s.peerRoomMap)
    (hps : s'.peerSocketMap = s.peerSocketMap) : WF s' := by
  have look : ∀ rid room, s'.rooms rid = some room →
      (rid = roomId ∧ room = ⟨roomId, r, o, []⟩) ∨ (rid ≠ roomId ∧ s.rooms rid = some room) := by
    intro rid room hroom
    rw [hr] at hroom
    by_cases hc : rid = roomId
    · subst hc
      rw [setF_self] at hroom
      exact Or.inl ⟨rfl, (Option.some.inj hroom).symm⟩
    · rw [setF_ne _ _ _ hc] at hroom
      exact Or.inr ⟨hc, hroom⟩
  constructor
  case room_id =>
    intro rid room hroom
    rcases look rid room hroom with ⟨h1, h2⟩ | ⟨h1, h2⟩
    · rw [h2, h1]
    · exact h.room_id rid room h2
  case keys_nodup =>
    intro rid room hroom
    rcases look rid room hroom with ⟨h1, h2⟩ | ⟨h1, h2⟩
    · rw [h2]; simp
    · exact h.keys_nodup rid room h2
  case key_eq_id =>
    intro rid room hroom kp hkp
    rcases look rid room hroom with ⟨h1, h2⟩ | ⟨h1, h2⟩
    · rw [h2] at hkp; simp at hkp
    · exact h.key_eq_id rid room h2 kp hkp
  case to_room =>
    intro rid room hroom kp hkp
    rcases look rid room hroom with ⟨h1, h2⟩ | ⟨h1, h2⟩
    · rw [h2] at hkp; simp at hkp
    · rw [hpr]; exact h.to_room rid room h2 kp hkp
  case to_sock =>
    intro rid room hroom kp hkp
    rcases look rid room hroom with ⟨h1, h2⟩ | ⟨h1, h2⟩
    · rw [h2] at hkp; simp at hkp
    · rw [hps]; exact h.to_sock rid room h2 kp hkp
  case sock_back =>
    intro c pid hc
    rw [hps] at hc
    obtain ⟨rid, room, P, h1, h2, h3, h4⟩ := h.sock_back c pid hc
    refine ⟨rid, room, P, by rw [hpr]; exact h1, ?_, h3, h4⟩
    rw [hr]
    have : rid ≠ roomId := by
      intro hh
      rw [hh, hnone] at h2
      exact Option.noConfusion h2
    rw [setF_ne _ _ _ this]
    exact h2

theorem wf_createRoom {s : ServerState} (h : WF s) (roomId : String) :
    WF (createRoom s roomId).1 := by
  unfold createRoom
  cases hr : s.rooms roomId with
  | some room => exact h
  | none => exact wf_set_empty_room h hr rfl rfl rfl

theorem createRoom_spec {s : ServerState} (h : WF s) (roomId : String) :
    (createRoom s roomId).1.rooms roomId = some (createRoom s roomId).2 ∧
    (createRoom s roomId).2.id = roomId ∧
    (createRoom s roomId).1.peerRoomMap = s.peerRoomMap ∧
    (createRoom s roomId).1.peerSocketMap = s.peerSocketMap := by
  unfold createRoom
  cases hr : s.rooms roomId with
  | some room => exact ⟨hr, h.room_id roomId room hr, rfl, rfl⟩
  | none => exact ⟨setF_self _ _ _, rfl, rfl, rfl⟩

theorem wf_join_state {s : ServerState} (h : WF s) {roomId pid : String} {c : ConnId}
    {room0 : MyRoom} (hroom : s.rooms roomId = some room0) (hid : room0.id = roomId)
    (hfresh1 : s.peerRoomMap pid = none) (hfresh2 : s.peerSocketMap c = none)
    {peer : MyPeer} (hpid : peer.id = pid) (hconn : peer.conn = c)
    {s' : ServerState}
    (hr : s'.rooms = setF s.rooms roomId { room0 with peers := insertA room0.peers pid peer })
    (hpr : s'.peerRoomMap = setF s.peerRoomMap pid roomId)
    (hps : s'.peerSocketMap = setF s.peerSocketMap c pid) : WF s' := by
  have idNe : ∀ rid room, s.rooms rid = some room → ∀ kp ∈ room.peers, kp.2.id ≠ pid := by
    intro rid room hrm kp hkp he
    have := h.to_room rid room hrm kp hkp
    rw [he, hfresh1] at this
    exact Option.noConfusion this
  have connNe : ∀ rid room, s.rooms rid = some room → ∀ kp ∈ room.peers, kp.2.conn ≠ c := by
    intro rid room hrm kp hkp he
    have := h.to_sock rid room hrm kp hkp
    rw [he, hfresh2] at this
    exact Option.noConfusion this
  have look : ∀ rid room, s'.rooms rid = some room →
      (rid = roomId ∧ room = { room0 with peers := insertA room0.peers pid peer }) ∨
      (rid ≠ roomId ∧ s.rooms rid = some room) := by
    intro rid room hrm
    rw [hr] at hrm
    by_cases hc : rid = roomId
    · subst hc
      rw [setF_self] at hrm
      exact Or.inl ⟨rfl, (Option.some.inj hrm).symm⟩
    · rw [setF_ne _ _ _ hc] at hrm
      exact Or.inr ⟨hc, hrm⟩
  constructor
  case room_id =>
    intro rid room hrm
    rcases look rid room hrm with ⟨h1, h2⟩ | ⟨h1, h2⟩
    · rw [h2, h1]
      exact hid
    · exact h.room_id rid room h2
  case keys_nodup =>
    intro rid room hrm
    rcases look rid room hrm with ⟨h1, h2⟩ | ⟨h1, h2⟩
    · rw [h2]
      exact nodup_keys_insertA pid peer (h.keys_nodup roomId room0 hroom)
    · exact h.keys_nodup rid room h2
  case key_eq_id =>
    intro rid room hrm kp hkp
    rcases look rid room hrm with ⟨h1, h2⟩ | ⟨h1, h2⟩
    · rw [h2] at hkp
      rcases mem_insertA hkp with h3 | h3
      · rw [h3, ← hpid]
      · exact h.key_eq_id roomId room0 hroom kp h3
    · exact h.key_eq_id rid room h2 kp hkp
  case to_room =>
    intro rid room hrm kp hkp
    rw [hpr]
    rcases look rid room hrm with ⟨h1, h2⟩ | ⟨h1, h2⟩
    · rw [h2] at hkp
      rw [h1]
      rcases mem_insertA hkp with h3 | h3
      · rw [h3]
        simp only [hpid]
        exact setF_self _ _ _
      · rw [setF_ne _ _ _ (idNe roomId room0 hroom kp h3)]
        exact h.to_room roomId room0 hroom kp h3
    · rw [setF_ne _ _ _ (idNe rid room h2 kp hkp)]
      exact h.to_room rid room h2 kp hkp
  case to_sock =>
    intro rid room hrm kp hkp
    rw [hps]
    rcases look rid room hrm with ⟨h1, h2⟩ | ⟨h1, h2⟩
    · rw [h2] at hkp
      rcases mem_insertA hkp with h3 | h3
      · rw [h3]
        simp only [hconn, hpid]
        exact setF_self _ _ _
      · rw [setF_ne _ _ _ (connNe roomId room0 hroom kp h3)]
        exact h.to_sock roomId room0 hroom kp h3
    · rw [setF_ne _ _ _ (connNe rid room h2 kp hkp)]
      exact h.to_sock rid room h2 kp hkp
  case sock_back =>
    intro c2 pid2 hc2
    rw [hps] at hc2
    by_cases hcc : c2 = c
    · subst hcc
      rw [setF_self] at hc2
      cases hc2
      refine ⟨roomId, { room0 with peers := insertA room0.peers pid peer }, peer, ?_, ?_, ?_, hconn⟩
      · rw [hpr]
        exact setF_self _ _ _
      · rw [hr]
        exact setF_self _ _ _
      · exact lookupA_insertA_self _ _ _
    · rw [setF_ne _ _ _ hcc] at hc2
      obtain ⟨rid3, room3, P3, e1, e2, e3, e4⟩ := h.sock_back c2 pid2 hc2
      have hpidne : pid2 ≠ pid := by
        intro hh
        rw [hh, hfresh1] at e1
        exact Option.noConfusion e1
      by_cases hr3 : rid3 = roomId
      · rw [hr3, hroom] at e2
        have hr03 : room0 = room3 := Option.some.inj e2
        refine ⟨roomId, { room0 with peers := insertA room0.peers pid peer }, P3, ?_, ?_, ?_, e4⟩
        · rw [hpr, setF_ne _ _ _ hpidne, e1, hr3]
        · rw [hr]
          exact setF_self _ _ _
        · rw [lookupA_insertA_ne _ _ hpidne, hr03]
          exact e3
      · refine ⟨rid3, room3, P3, ?_, ?_, e3, e4⟩
        · rw [hpr, setF_ne _ _ _ hpidne]
          exact e1
        · rw [hr, setF_ne _ _ _ hr3]
          exact e2

theorem wf_handleJoinRoom {s : ServerState} (h : WF s) (c : ConnId)
    (reqId : Option String) (roomId pid : String) (dn : Option String)
    (hfresh1 : s.peerRoomMap pid = none) (hfresh2 : s.peerSocketMap c = none) :
    WF (handleJoinRoom s c reqId roomId pid dn).1 := by
  obtain ⟨e1, e2, e3, e4⟩ := createRoom_spec h roomId
  exact @wf_join_state (createRoom s roomId).1 (wf_createRoom h roomId) roomId pid c
    (createRoom s roomId).2 e1 e2 (by rw [e3]; exact hfresh1) (by rw [e4]; exact hfresh2)
    { id := pid
      displayName := dn.getD "Anonymous"
      conn := c
      connectionState := ConnState.connected
      sendTransport := none
      recvTransport := none
      producers := []
      consumers := [] }
    rfl rfl (handleJoinRoom s c reqId roomId pid dn).1 rfl rfl rfl

theorem mem_eq_of_lookupA {κ β : Type} [DecidableEq κ] {l : List (κ × β)}
    (hnd : (l.map Prod.fst).Nodup) {kp : κ × β} (hkp : kp ∈ l) {v : β}
    (hl : lookupA l kp.1 = some v) : kp.2 = v := by
  induction l with
  | nil => simp at hkp
  | cons hd t ih =>
    obtain ⟨k1, v1⟩ := hd
    simp only [List.map_cons, List.nodup_cons] at hnd
    rcases List.mem_cons.1 hkp with h1 | h1
    · rw [h1] at hl
      rw [lookupA_cons, if_pos rfl] at hl
      rw [h1]
      exact Option.some.inj hl
    · have hne : k1 ≠ kp.1 := by
        intro hh
        exact hnd.1 (hh ▸ List.mem_map_of_mem Prod.fst h1)
      rw [lookupA_cons, if_neg hne] at hl
      exact ih hnd.2 h1 hl

theorem wf_updatePeerInRoom {s : ServerState} (h : WF s) (rid pid : String)
    {f : MyPeer → MyPeer} (hfid : ∀ p, (f p).id = p.id)
    (hfconn : ∀ p, (f p).conn = p.conn) :
    WF (updatePeerInRoom s rid pid f) := by
  unfold updatePeerInRoom
  cases hr : s.rooms rid with
  | none => exact h
  | some room =>
    show WF { s with rooms := setF s.rooms rid { room with peers := updateAt room.peers pid f } }
    have idconn : ∀ kp : String × MyPeer, kp ∈ updateAt room.peers pid f →
        ∃ q ∈ room.peers, kp.1 = q.1 ∧ kp.2.id = q.2.id ∧ kp.2.conn = q.2.conn := by
      intro kp hkp
      obtain ⟨q, hq, h1, h2⟩ := mem_updateAt hkp
      rcases h2 with h2 | h2
      · exact ⟨q, hq, h1, by rw [h2], by rw [h2]⟩
      · exact ⟨q, hq, h1, by rw [h2, hfid], by rw [h2, hfconn]⟩
    have look : ∀ rid2 room2,
        setF s.rooms rid { room with peers := updateAt room.peers pid f } rid2 = some room2 →
        (rid2 = rid ∧ room2 = { room with peers := updateAt room.peers pid f }) ∨
        (rid2 ≠ rid ∧ s.rooms rid2 = some room2) := by
      intro rid2 room2 hrm
      by_cases hc : rid2 = rid
      · subst hc
        rw [setF_self] at hrm
        exact Or.inl ⟨rfl, (Option.some.inj hrm).symm⟩
      · rw [setF_ne _ _ _ hc] at hrm
        exact Or.inr ⟨hc, hrm⟩
    constructor
    case room_id =>
      intro rid2 room2 hrm
      rcases look rid2 room2 hrm with ⟨h1, h2⟩ | ⟨h1, h2⟩
      · rw [h2, h1]
        exact h.room_id rid room hr
      · exact h.room_id rid2 room2 h2
    case keys_nodup =>
      intro rid2 room2 hrm
      rcases look rid2 room2 hrm with ⟨h1, h2⟩ | ⟨h1, h2⟩
      · rw [h2]
        simpa [keys_updateAt] using h.keys_nodup rid room hr
      · exact h.keys_nodup rid2 room2 h2
    case key_eq_id =>
      intro rid2 room2 hrm kp hkp
      rcases look rid2 room2 hrm with ⟨h1, h2⟩ | ⟨h1, h2⟩
      · rw [h2] at hkp
        obtain ⟨q, hq, e1, e2, _⟩ := idconn kp hkp
        rw [e1, e2]
        exact h.key_eq_id rid room hr q hq
      · exact h.key_eq_id rid2 room2 h2 kp hkp
    case to_room =>
      intro rid2 room2 hrm kp hkp
      rcases look rid2 room2 hrm with ⟨h1, h2⟩ | ⟨h1, h2⟩
      · rw [h2] at hkp
        obtain ⟨q, hq, _, e2, _⟩ := idconn kp hkp
        rw [e2, h1]
        exact h.to_room rid room hr q hq
      · exact h.to_room rid2 room2 h2 kp hkp
    case to_sock =>
      intro rid2 room2 hrm kp hkp
      rcases look rid2 room2 hrm with ⟨h1, h2⟩ | ⟨h1, h2⟩
      · rw [h2] at hkp
        obtain ⟨q, hq, _, e2, e3⟩ := idconn kp hkp
        rw [e2, e3]
        exact h.to_sock rid room hr q hq
      · exact h.to_sock rid2 room2 h2 kp hkp
    case sock_back =>
      intro c2 pid2 hc2
      obtain ⟨rid3, room3, P3, e1, e2, e3, e4⟩ := h.sock_back c2 pid2 hc2
      by_cases hr3 : rid3 = rid
      · rw [hr3, hr] at e2
        have hroom3 : room = room3 := Option.some.inj e2
        subst hroom3
        refine ⟨rid, { room with peers := updateAt room.peers pid f }, ?_⟩
        by_cases hp2 : pid2 = pid
        · refine ⟨f P3, by rw [← hr3]; exact e1, setF_self _ _ _, ?_,
            by rw [hfconn]; exact e4⟩
          rw [lookupA_updateAt, if_pos hp2, e3]
          rfl
        · refine ⟨P3, by rw [← hr3]; exact e1, setF_self _ _ _, ?_, e4⟩
          rw [lookupA_updateAt, if_neg hp2]
          exact e3
      · exact ⟨rid3, room3, P3, e1, by
          show setF s.rooms rid _ rid3 = some room3
          rw [setF_ne _ _ _ hr3]
          exact e2, e3, e4⟩

theorem wf_bump {s : ServerState} (h : WF s) (n : Nat) : WF { s with nextId := n } :=
  wf_of_fields h rfl rfl rfl

theorem wf_handleCreateRoom {s : ServerState} (h : WF s) (c : ConnId)
    (reqId : Option String) (roomId : String) :
    WF (handleCreateRoom s c reqId roomId).1 :=
  wf_createRoom h roomId

theorem wf_handleCreateWebRtcTransport {s : ServerState} (h : WF s) (c : ConnId)
    (reqId : Option String) (dir : Option String) :
    WF (handleCreateWebRtcTransport s c reqId dir).1 := by
  unfold handleCreateWebRtcTransport
  split
  · exact h
  · split
    · exact h
    · split
      · exact h
      · apply wf_updatePeerInRoom (wf_bump h _)
        · intro p
          by_cases hd : dir = some "recv" <;> simp [hd]
        · intro p
          by_cases hd : dir = some "recv" <;> simp [hd]

theorem wf_handleConnectWebRtcTransport {s : ServerState} (h : WF s) (c : ConnId)
    (reqId : Option String) (dir : Option String) (tid : Option Nat) :
    WF (handleConnectWebRtcTransport s c reqId dir tid).1 := by
  unfold handleConnectWebRtcTransport
  split
  · exact h
  · split <;> exact h

theorem wf_handleProduce {s : ServerState} (h : WF s) (c : ConnId)
    (reqId : Option String) (kind : MediaKind) (src : Option ProducerSource) :
    WF (handleProduce s c reqId kind src).1 := by
  unfold handleProduce
  split
  · exact h
  · split
    · exact h
    · split
      · exact h
      · split
        · exact h
        · apply wf_updatePeerInRoom (wf_bump h _)
          · intro p
            simp
          · intro p
            simp

theorem wf_handleConsume {s : ServerState} (h : WF s) (c : ConnId)
    (reqId : Option String) (producerId : Nat) :
    WF (handleConsume s c reqId producerId).1 := by
  unfold handleConsume
  split
  · exact h
  · split
    · exact h
    · split
      · exact h
      · split
        · exact h
        · split
          · exact h
          · apply wf_updatePeerInRoom (wf_bump h _)
            · intro p
              simp
            · intro p
              simp

theorem wf_handlePauseProducer {s : ServerState} (h : WF s) (c : ConnId)
    (reqId : Option String) (producerId : Nat) :
    WF (handlePauseProducer s c reqId producerId).1 := by
  unfold handlePauseProducer
  split
  · exact h
  · split
    · exact h
    · apply wf_updatePeerInRoom h
      · intro p
        simp
      · intro p
        simp

theorem wf_handleResumeProducer {s : ServerState} (h : WF s) (c : ConnId)
    (reqId : Option String) (producerId : Nat) :
    WF (handleResumeProducer s c reqId producerId).1 := by
  unfold handleResumeProducer
  split
  · exact h
  · split
    · exact h
    · apply wf_updatePeerInRoom h
      · intro p
        simp
      · intro p
        simp

theorem wf_id_unique {s : ServerState} (h : WF s) {rid : String} {room : MyRoom}
    {pid : String} {peer : MyPeer}
    (hm1 : s.peerRoomMap pid = some rid) (hm2 : s.rooms rid = some room)
    (hm3 : lookupA room.peers pid = some peer) :
    ∀ rid2 room2, s.rooms rid2 = some room2 → ∀ kp ∈ room2.peers,
      kp.2.id = pid → rid2 = rid ∧ kp = (pid, peer) := by
  intro rid2 room2 hrm kp hkp hid2
  have t := h.to_room rid2 room2 hrm kp hkp
  rw [hid2, hm1] at t
  have hrr : rid2 = rid := (Option.some.inj t).symm
  subst hrr
  rw [hm2] at hrm
  have hroomeq : room = room2 := Option.some.inj hrm
  subst hroomeq
  have k1 := h.key_eq_id rid2 room hm2 kp hkp
  have hk : kp.1 = pid := by rw [k1, hid2]
  have hv : kp.2 = peer := by
    apply mem_eq_of_lookupA (h.keys_nodup rid2 room hm2) hkp
    rw [hk]
    exact hm3
  refine ⟨rfl, ?_⟩
  obtain ⟨kpk, kpv⟩ := kp
  simp only [Prod.mk.injEq]
  exact ⟨hk, hv⟩

theorem wf_conn_unique {s : ServerState} (h : WF s) {rid : String} {room : MyRoom}
    {pid : String} {peer : MyPeer}
    (hm1 : s.peerRoomMap pid = some rid) (hm2 : s.rooms rid = some room)
    (hm3 : lookupA room.peers pid = some peer) :
    ∀ rid2 room2, s.rooms rid2 = some room2 → ∀ kp ∈ room2.peers,
      kp.2.conn = peer.conn → rid2 = rid ∧ kp = (pid, peer) := by
  intro rid2 room2 hrm kp hkp hconn2
  have hmem : (pid, peer) ∈ room.peers := lookupA_mem hm3
  have tS := h.to_sock rid2 room2 hrm kp hkp
  have tS2 := h.to_sock rid room hm2 (pid, peer) hmem
  rw [hconn2] at tS
  rw [tS2] at tS
  have hidp : peer.id = kp.2.id := Option.some.inj tS
  have hpidid : pid = peer.id := h.key_eq_id rid room hm2 (pid, peer) hmem
  exact wf_id_unique h hm1 hm2 hm3 rid2 room2 hrm kp hkp (by rw [← hidp, ← hpidid])

theorem wf_cleanup_empty {s : ServerState} (h : WF s) {rid : String} {room : MyRoom}
    {pid : String} {peer : MyPeer}
    (hm1 : s.peerRoomMap pid = some rid) (hm2 : s.rooms rid = some room)
    (hm3 : lookupA room.peers pid = some peer)
    (hempty : eraseA room.peers pid = []) {s' : ServerState}
    (hr : s'.rooms = delF s.rooms rid)
    (hpr : s'.peerRoomMap = delF s.peerRoomMap pid)
    (hps : s'.peerSocketMap = delF s.peerSocketMap peer.conn) : WF s' := by
  have look : ∀ rid2 room2, s'.rooms rid2 = some room2 →
      rid2 ≠ rid ∧ s.rooms rid2 = some room2 := by
    intro rid2 room2 hrm
    rw [hr] at hrm
    by_cases hc : rid2 = rid
    · rw [hc, delF_self] at hrm
      exact Option.noConfusion hrm
    · rw [delF_ne _ _ hc] at hrm
      exact ⟨hc, hrm⟩
  have idA := wf_id_unique h hm1 hm2 hm3
  have connB := wf_conn_unique h hm1 hm2 hm3
  constructor
  case room_id =>
    intro rid2 room2 hrm
    obtain ⟨h1, h2⟩ := look rid2 room2 hrm
    exact h.room_id rid2 room2 h2
  case keys_nodup =>
    intro rid2 room2 hrm
    obtain ⟨h1, h2⟩ := look rid2 room2 hrm
    exact h.keys_nodup rid2 room2 h2
  case key_eq_id =>
    intro rid2 room2 hrm kp hkp
    obtain ⟨h1, h2⟩ := look rid2 room2 hrm
    exact h.key_eq_id rid2 room2 h2 kp hkp
  case to_room =>
    intro rid2 room2 hrm kp hkp
    obtain ⟨h1, h2⟩ := look rid2 room2 hrm
    rw [hpr]
    have hne : kp.2.id ≠ pid := by
      intro hh
      exact h1 (idA rid2 room2 h2 kp hkp hh).1
    rw [delF_ne _ _ hne]
    exact h.to_room rid2 room2 h2 kp hkp
  case to_sock =>
    intro rid2 room2 hrm kp hkp
    obtain ⟨h1, h2⟩ := look rid2 room2 hrm
    rw [hps]
    have hne : kp.2.conn ≠ peer.conn := by
      intro hh
      exact h1 (connB rid2 room2 h2 kp hkp hh).1
    rw [delF_ne _ _ hne]
    exact h.to_sock rid2 room2 h2 kp hkp
  case sock_back =>
    intro c2 pid2 hc2
    rw [hps] at hc2
    by_cases hcc : c2 = peer.conn
    · rw [hcc, delF_self] at hc2
      exact Option.noConfusion hc2
    · rw [delF_ne _ _ hcc] at hc2
      obtain ⟨rid3, room3, P3, e1, e2, e3, e4⟩ := h.sock_back c2 pid2 hc2
      have hpidne : pid2 ≠ pid := by
        intro hh
        rw [hh, hm1] at e1
        have : rid3 = rid := (Option.some.inj e1).symm
        rw [this, hm2] at e2
        have : room3 = room := (Option.some.inj e2).symm
        rw [this, hh, hm3] at e3
        have : P3 = peer := (Option.some.inj e3).symm
        rw [this] at e4
        exact hcc e4.symm
      have hr3ne : rid3 ≠ rid := by
        intro hh
        rw [hh, hm2] at e2
        have : room3 = room := (Option.some.inj e2).symm
        rw [this] at e3
        have e3' : lookupA (eraseA room.peers pid) pid2 = some P3 := by
          rw [lookupA_eraseA_ne _ hpidne]
          exact e3
        rw [hempty] at e3'
        exact Option.noConfusion e3'
      refine ⟨rid3, room3, P3, ?_, ?_, e3, e4⟩
      · rw [hpr, delF_ne _ _ hpidne]
        exact e1
      · rw [hr, delF_ne _ _ hr3ne]
        exact e2

theorem wf_cleanup_nonempty {s : ServerState} (h : WF s) {rid : String} {room : MyRoom}
    {pid : String} {peer : MyPeer}
    (hm1 : s.peerRoomMap pid = some rid) (hm2 : s.rooms rid = some room)
    (hm3 : lookupA room.peers pid = some peer) {s' : ServerState}
    (hr : s'.rooms = setF s.rooms rid { room with peers := eraseA room.peers pid })
    (hpr : s'.peerRoomMap = delF s.peerRoomMap pid)
    (hps : s'.peerSocketMap = delF s.peerSocketMap peer.conn) : WF s' := by
  have nodup := h.keys_nodup rid room hm2
  have look : ∀ rid2 room2, s'.rooms rid2 = some room2 →
      (rid2 = rid ∧ room2 = { room with peers := eraseA room.peers pid }) ∨
      (rid2 ≠ rid ∧ s.rooms rid2 = some room2) := by
    intro rid2 room2 hrm
    rw [hr] at hrm
    by_cases hc : rid2 = rid
    · rw [hc, setF_self] at hrm
      exact Or.inl ⟨hc, (Option.some.inj hrm).symm⟩
    · rw [setF_ne _ _ _ hc] at hrm
      exact Or.inr ⟨hc, hrm⟩
  have idA := wf_id_unique h hm1 hm2 hm3
  have connB := wf_conn_unique h hm1 hm2 hm3
  constructor
  case room_id =>
    intro rid2 room2 hrm
    rcases look rid2 room2 hrm with ⟨h1, h2⟩ | ⟨h1, h2⟩
    · rw [h2, h1]
      exact h.room_id rid room hm2
    · exact h.room_id rid2 room2 h2
  case keys_nodup =>
    intro rid2 room2 hrm
    rcases look rid2 room2 hrm with ⟨h1, h2⟩ | ⟨h1, h2⟩
    · rw [h2]
      exact nodup_keys_eraseA pid nodup
    · exact h.keys_nodup rid2 room2 h2
  case key_eq_id =>
    intro rid2 room2 hrm kp hkp
    rcases look rid2 room2 hrm with ⟨h1, h2⟩ | ⟨h1, h2⟩
    · rw [h2] at hkp
      exact h.key_eq_id rid room hm2 kp (mem_eraseA hkp)
    · exact h.key_eq_id rid2 room2 h2 kp hkp
  case to_room =>
    intro rid2 room2 hrm kp hkp
    rw [hpr]
    rcases look rid2 room2 hrm with ⟨h1, h2⟩ | ⟨h1, h2⟩
    · rw [h2] at hkp
      have hkne : kp.1 ≠ pid := mem_eraseA_key_ne nodup hkp
      have hmem : kp ∈ room.peers := mem_eraseA hkp
      have hne : kp.2.id ≠ pid := by
        rw [← h.key_eq_id rid room hm2 kp hmem]
        exact hkne
      rw [delF_ne _ _ hne, h1]
      exact h.to_room rid room hm2 kp hmem
    · have hne : kp.2.id ≠ pid := by
        intro hh
        exact h1 (idA rid2 room2 h2 kp hkp hh).1
      rw [delF_ne _ _ hne]
      exact h.to_room rid2 room2 h2 kp hkp
  case to_sock =>
    intro rid2 room2 hrm kp hkp
    rw [hps]
    rcases look rid2 room2 hrm with ⟨h1, h2⟩ | ⟨h1, h2⟩
    · rw [h2] at hkp
      have hkne : kp.1 ≠ pid := mem_eraseA_key_ne nodup hkp
      have hmem : kp ∈ room.peers := mem_eraseA hkp
      have hne : kp.2.conn ≠ peer.conn := by
        intro hh
        have := (connB rid room hm2 kp hmem hh).2
        rw [this] at hkne
        exact hkne rfl
      rw [delF_ne _ _ hne]
      exact h.to_sock rid room hm2 kp hmem
    · have hne : kp.2.conn ≠ peer.conn := by
        intro hh
        exact h1 (connB rid2 room2 h2 kp hkp hh).1
      rw [delF_ne _ _ hne]
      exact h.to_sock rid2 room2 h2 kp hkp
  case sock_back =>
    intro c2 pid2 hc2
    rw [hps] at hc2
    by_cases hcc : c2 = peer.conn
    · rw [hcc, delF_self] at hc2
      exact Option.noConfusion hc2
    · rw [delF_ne _ _ hcc] at hc2
      obtain ⟨rid3, room3, P3, e1, e2, e3, e4⟩ := h.sock_back c2 pid2 hc2
      have hpidne : pid2 ≠ pid := by
        intro hh
        rw [hh, hm1] at e1
        have hx : rid3 = rid := (Option.some.inj e1).symm
        rw [hx, hm2] at e2
        have hy : room3 = room := (Option.some.inj e2).symm
        rw [hy, hh, hm3] at e3
        have hz : P3 = peer := (Option.some.inj e3).symm
        rw [hz] at e4
        exact hcc e4.symm
      by_cases hr3 : rid3 = rid
      · rw [hr3, hm2] at e2
        have hy : room3 = room := (Option.some.inj e2).symm
        refine ⟨rid, { room with peers := eraseA room.peers pid }, P3, ?_, ?_, ?_, e4⟩
        · rw [hpr, delF_ne _ _ hpidne, e1, hr3]
        · rw [hr]
          exact setF_self _ _ _
        · rw [lookupA_eraseA_ne _ hpidne, ← hy]
          exact e3
      · refine ⟨rid3, room3, P3, ?_, ?_, e3, e4⟩
        · rw [hpr, delF_ne _ _ hpidne]
          exact e1
        · rw [hr, setF_ne _ _ _ hr3]
          exact e2

theorem cleanupPeer_noop_noRoomMap {s : ServerState} {pid : String}
    (hm1 : s.peerRoomMap pid = none) : cleanupPeer s pid = (s, []) := by
  unfold cleanupPeer
  simp only [hm1]

theorem cleanupPeer_noop_noRoom {s : ServerState} {pid rid : String}
    (hm1 : s.peerRoomMap pid = some rid) (hm2 : s.rooms rid = none) :
    cleanupPeer s pid = (s, []) := by
  unfold cleanupPeer
  simp only [hm1, hm2]

theorem cleanupPeer_noop_noPeer {s : ServerState} {pid rid : String} {room : MyRoom}
    (hm1 : s.peerRoomMap pid = some rid) (hm2 : s.rooms rid = some room)
    (hm3 : lookupA room.peers pid = none) : cleanupPeer s pid = (s, []) := by
  unfold cleanupPeer
  simp only [hm1, hm2, hm3]

/-- Exact effect of `cleanupPeer` when the peer resolves and removing it
empties the room: both registries drop the peer, every producer,
consumer and transport handle of the peer is closed, the router is
closed (closing the audio level observer with it), and the room is
removed.  The emitted frames are the `producerClosed` broadcasts; the
room has no remaining peer for `peerLeft`. -/
theorem cleanupPeer_spec_empty {s : ServerState} {pid rid : String} {room : MyRoom}
    {peer : MyPeer} (hm1 : s.peerRoomMap pid = some rid)
    (hm2 : s.rooms rid = some room) (hm3 : lookupA room.peers pid = some peer)
    (hE : eraseA room.peers pid = []) :
    cleanupPeer s pid =
      ({ s with rooms := delF s.rooms rid,
                peerSocketMap := delF s.peerSocketMap peer.conn,
                peerRoomMap := delF s.peerRoomMap pid,
                closedIds := s.closedIds ++ peer.producers.map (fun q => q.2.id) ++
                  peer.consumers.map (fun q => q.2.id) ++
                  ((match peer.sendTransport with | some t => [t] | none => []) ++
                   (match peer.recvTransport with | some t => [t] | none => [])) ++
                  [room.router, room.audioLevelObserver] },
       peer.producers.flatMap (fun q =>
         (otherOpenPeers room.peers pid s.openConns).map
           (fun p => Output.send p.conn (ServerMsg.producerClosed pid q.2.id)))) := by
  unfold cleanupPeer
  simp only [hm1, hm2, hm3, hE, List.isEmpty_nil, if_true, List.map_nil,
    List.filter_nil, List.append_nil]

/-- Exact effect of `cleanupPeer` when the peer resolves and other peers
remain in the room: registries drop the peer, its handles are closed,
the room keeps its router and observer, and `producerClosed` broadcasts
are followed by `peerLeft` to the remaining open peers. -/
theorem cleanupPeer_spec_nonempty {s : ServerState} {pid rid : String} {room : MyRoom}
    {peer : MyPeer} (hm1 : s.peerRoomMap pid = some rid)
    (hm2 : s.rooms rid = some room) (hm3 : lookupA room.peers pid = some peer)
    (hE : (eraseA room.peers pid).isEmpty = false) :
    cleanupPeer s pid =
      ({ s with rooms := setF s.rooms rid { room with peers := eraseA room.peers pid },
                peerSocketMap := delF s.peerSocketMap peer.conn,
                peerRoomMap := delF s.peerRoomMap pid,
                closedIds := s.closedIds ++ peer.producers.map (fun q => q.2.id) ++
                  peer.consumers.map (fun q => q.2.id) ++
                  ((match peer.sendTransport with | some t => [t] | none => []) ++
                   (match peer.recvTransport with | some t => [t] | none => [])) },
       peer.producers.flatMap (fun q =>
         (otherOpenPeers room.peers pid s.openConns).map
           (fun p => Output.send p.conn (ServerMsg.producerClosed pid q.2.id))) ++
       (((eraseA room.peers pid).map Prod.snd).filter
           (fun p => s.openConns p.conn)).map
         (fun p => Output.send p.conn (ServerMsg.peerLeft pid peer.displayName))) := by
  unfold cleanupPeer
  simp only [hm1, hm2, hm3, hE, Bool.false_eq_true, if_false]

theorem wf_cleanupPeer {s : ServerState} (h : WF s) (pid : String) :
    WF (cleanupPeer s pid).1 := by
  cases hm1 : s.peerRoomMap pid with
  | none => rw [cleanupPeer_noop_noRoomMap hm1]; exact h
  | some rid =>
    cases hm2 : s.rooms rid with
    | none => rw [cleanupPeer_noop_noRoom hm1 hm2]; exact h
    | some room =>
      cases hm3 : lookupA room.peers pid with
      | none => rw [cleanupPeer_noop_noPeer hm1 hm2 hm3]; exact h
      | some peer =>
        cases hE : (eraseA room.peers pid).isEmpty with
        | true =>
          rw [cleanupPeer_spec_empty hm1 hm2 hm3 (by simpa using hE)]
          exact wf_cleanup_empty h hm1 hm2 hm3 (by simpa using hE) rfl rfl rfl
        | false =>
          rw [cleanupPeer_spec_nonempty hm1 hm2 hm3 hE]
          exact wf_cleanup_nonempty h hm1 hm2 hm3 rfl rfl rfl

theorem wf_handleMessage {s : ServerState} (h : WF s) (c : ConnId) (m : ClientMsg)
    (hallow : FreshJoin s (Event.request c m)) : WF (handleMessage s c m).1 := by
  cases m with
  | createRoom reqId roomId => exact wf_handleCreateRoom h c reqId roomId
  | joinRoom reqId roomId pid dn =>
    obtain ⟨h1, h2⟩ := hallow
    exact wf_handleJoinRoom h c reqId roomId pid dn h1 h2
  | createWebRtcTransport reqId dir => exact wf_handleCreateWebRtcTransport h c reqId dir
  | connectWebRtcTransport reqId dir tid =>
    exact wf_handleConnectWebRtcTransport h c reqId dir tid
  | produce reqId kind src => exact wf_handleProduce h c reqId kind src
  | consume reqId producerId => exact wf_handleConsume h c reqId producerId
  | pauseProducer reqId producerId => exact wf_handlePauseProducer h c reqId producerId
  | resumeProducer reqId producerId => exact wf_handleResumeProducer h c reqId producerId
  | setProducerMuted reqId producerId muted => exact h
  | unknown reqId => exact h

theorem wf_step {s : ServerState} (h : WF s) (e : Event)
    (hallow : FreshJoin s e) : WF (step s e).1 := by
  cases e with
  | connect c => exact wf_of_fields h rfl rfl rfl
  | request c m => exact wf_handleMessage h c m hallow
  | badFrame c => exact h
  | disconnect c =>
    have hwf1 : WF { s with openConns := fun x => if x = c then false else s.openConns x } :=
      wf_of_fields h rfl rfl rfl
    cases hm : s.peerSocketMap c with
    | some pid =>
      have he : step s (Event.disconnect c) =
          cleanupPeer { s with openConns := fun x => if x = c then false else s.openConns x } pid := by
        unfold step
        simp only [hm]
      rw [he]
      exact wf_cleanupPeer hwf1 pid
    | none =>
      have he : step s (Event.disconnect c) =
          ({ s with openConns := fun x => if x = c then false else s.openConns x }, []) := by
        unfold step
        simp only [hm]
      rw [he]
      exact hwf1

theorem wf_reachable {s : ServerState} (h : ReachableUnder FreshJoin s) : WF s := by
  induction h with
  | init => exact wf_initial
  | next e hrec hallow ih => exact wf_step ih e hallow

/-- C1 (amended): in every state reachable from the initial state by
handled requests, unparseable frames, connection opens and connection
closes in which every joinRoom request names a peerId not yet bound in
the peer-to-room registry and arrives on a connection not yet bound in
the socket-to-peer registry, mapping coherence holds: for every peer P
stored in any registered room, `peerRoomMap P.id` is that room's id,
`peerSocketMap P.conn` is `P.id`, and no other registered room holds a
peer with id `P.id`.  (The claim as stated, over all traces, is refuted
by `c1_mapping_coherence_counterexample`: a joinRoom for a peerId
already bound elsewhere leaves a stale peer record in the old room and a
stale socket mapping.) -/
theorem c1_mapping_coherence_fresh {s : ServerState}
    (h : ReachableUnder FreshJoin s) : Coherent s :=
  coherent_of_wf (wf_reachable h)

/-- Witness for C1: the state after a connection opens and a fresh
peerId joins a room is reachable under the fresh-join discipline, and
the theorem yields its coherence. -/
theorem c1_mapping_coherence_fresh_witness : Coherent (runTrace c1GoodTrace) :=
  c1_mapping_coherence_fresh
    (ReachableUnder.next (Event.request 0 (ClientMsg.joinRoom (some "1") "R" "p1" (some "A")))
      (ReachableUnder.next (Event.connect 0) ReachableUnder.init trivial)
      ⟨rfl, rfl⟩)

/-- C1 counterexample: after `c1BadTrace` (the same peerId joining room
`A` and then room `B`), the final state is reachable by handled
requests and connection events, yet coherence fails: room `A` still
holds a peer record with id `p` while the peer-to-room registry maps
`p` to `B`. -/
theorem c1_mapping_coherence_counterexample :
    ReachableUnder AnyEvent (runTrace c1BadTrace) ∧ ¬ Coherent (runTrace c1BadTrace) := by
  constructor
  · exact ReachableUnder.next (Event.request 1 (ClientMsg.joinRoom (some "2") "B" "p" (some "B")))
      (ReachableUnder.next (Event.connect 1)
        (ReachableUnder.next (Event.request 0 (ClientMsg.joinRoom (some "1") "A" "p" (some "A")))
          (ReachableUnder.next (Event.connect 0) ReachableUnder.init trivial)
          trivial)
        trivial)
      trivial
  · intro hcoh
    have h1 : (runTrace c1BadTrace).rooms "A" = some c1RoomA := by decide
    have h2 := (hcoh "A" c1RoomA h1 ("p", freshPeer "p" "A" 0) (by decide)).1
    have h3 : (runTrace c1BadTrace).peerRoomMap ("p", freshPeer "p" "A" 0).2.id = some "B" := by
      decide
    rw [h3] at h2
    exact absurd (Option.some.inj h2) (by decide)

theorem insertA_ne_nil {κ β : Type} [DecidableEq κ] (l : List (κ × β)) (k : κ) (v : β) :
    insertA l k v ≠ [] := by
  cases l with
  | nil => simp [insertA]
  | cons hd t =>
    obtain ⟨k1, v1⟩ := hd
    rw [insertA_cons]
    by_cases hk : k1 = k
    · rw [if_pos hk]
      simp
    · rw [if_neg hk]
      simp

theorem updateAt_ne_nil {κ β : Type} [DecidableEq κ] {l : List (κ × β)}
    (h : l ≠ []) (k : κ) (f : β → β) : updateAt l k f ≠ [] := by
  cases l with
  | nil => exact absurd rfl h
  | cons hd t => simp [updateAt]

theorem nonempty_of_rooms_eq {s s' : ServerState} (hr : s'.rooms = s.rooms)
    (h : RoomsNonempty s) : RoomsNonempty s' := by
  intro rid room hrm
  rw [hr] at hrm
  exact h rid room hrm

theorem nonempty_updatePeerInRoom {s : ServerState} (h : RoomsNonempty s)
    (rid pid : String) (f : MyPeer → MyPeer) :
    RoomsNonempty (updatePeerInRoom s rid pid f) := by
  unfold updatePeerInRoom
  cases hr : s.rooms rid with
  | none => exact h
  | some room =>
    intro rid2 room2 hrm
    have hrm2 : setF s.rooms rid { room with peers := updateAt room.peers pid f } rid2 =
        some room2 := hrm
    by_cases hc : rid2 = rid
    · rw [hc, setF_self] at hrm2
      have := Option.some.inj hrm2
      rw [← this]
      exact updateAt_ne_nil (h rid room hr) pid f
    · rw [setF_ne _ _ _ hc] at hrm2
      exact h rid2 room2 hrm2

theorem createRoom_rooms_other {s : ServerState} (roomId : String) {x : String}
    (hx : x ≠ roomId) : (createRoom s roomId).1.rooms x = s.rooms x := by
  unfold createRoom
  cases hr : s.rooms roomId with
  | some room => rfl
  | none => exact setF_ne _ _ _ hx

theorem handleJoinRoom_rooms (s : ServerState) (c : ConnId) (reqId : Option String)
    (roomId pid : String) (dn : Option String) :
    (handleJoinRoom s c reqId roomId pid dn).1.rooms =
      setF (createRoom s roomId).1.rooms roomId
        { (createRoom s roomId).2 with
          peers := insertA (createRoom s roomId).2.peers pid
            (freshPeer pid (dn.getD "Anonymous") c) } := rfl

theorem nonempty_handleJoinRoom {s : ServerState} (h : RoomsNonempty s) (c : ConnId)
    (reqId : Option String) (roomId pid : String) (dn : Option String) :
    RoomsNonempty (handleJoinRoom s c reqId roomId pid dn).1 := by
  intro rid2 room2 hrm
  rw [handleJoinRoom_rooms] at hrm
  by_cases hc : rid2 = roomId
  · rw [hc, setF_self] at hrm
    have := Option.some.inj hrm
    rw [← this]
    exact insertA_ne_nil _ _ _
  · rw [setF_ne _ _ _ hc, createRoom_rooms_other roomId hc] at hrm
    exact h rid2 room2 hrm

theorem nonempty_cleanupPeer {s : ServerState} (h : RoomsNonempty s) (pid : String) :
    RoomsNonempty (cleanupPeer s pid).1 := by
  cases hm1 : s.peerRoomMap pid with
  | none => rw [cleanupPeer_noop_noRoomMap hm1]; exact h
  | some rid =>
    cases hm2 : s.rooms rid with
    | none => rw [cleanupPeer_noop_noRoom hm1 hm2]; exact h
    | some room =>
      cases hm3 : lookupA room.peers pid with
      | none => rw [cleanupPeer_noop_noPeer hm1 hm2 hm3]; exact h
      | some peer =>
        cases hE : (eraseA room.peers pid).isEmpty with
        | true =>
          rw [cleanupPeer_spec_empty hm1 hm2 hm3 (by simpa using hE)]
          intro rid2 room2 hrm
          have hrm2 : delF s.rooms rid rid2 = some room2 := hrm
          by_cases hc : rid2 = rid
          · rw [hc, delF_self] at hrm2
            exact Option.noConfusion hrm2
          · rw [delF_ne _ _ hc] at hrm2
            exact h rid2 room2 hrm2
        | false =>
          rw [cleanupPeer_spec_nonempty hm1 hm2 hm3 hE]
          intro rid2 room2 hrm
          have hrm2 : setF s.rooms rid { room with peers := eraseA room.peers pid } rid2 =
              some room2 := hrm
          by_cases hc : rid2 = rid
          · rw [hc, setF_self] at hrm2
            have := Option.some.inj hrm2
            rw [← this]
            show eraseA room.peers pid ≠ []
            intro hnil
            rw [hnil] at hE
            simp at hE
          · rw [setF_ne _ _ _ hc] at hrm2
            exact h rid2 room2 hrm2

theorem nonempty_bump {s : ServerState} (h : RoomsNonempty s) (n : Nat) :
    RoomsNonempty { s with nextId := n } :=
  fun rid room hrm => h rid room hrm

theorem nonempty_close {s : ServerState} (h : RoomsNonempty s) (c : ConnId) :
    RoomsNonempty { s with openConns := fun x => if x = c then false else s.openConns x } :=
  fun rid room hrm => h rid room hrm

theorem nonempty_handleMessage {s : ServerState} (h : RoomsNonempty s) (c : ConnId)
    (m : ClientMsg) (hallow : NoCreateRoom s (Event.request c m)) :
    RoomsNonempty (handleMessage s c m).1 := by
  cases m with
  | createRoom reqId roomId => exact hallow.elim
  | joinRoom reqId roomId pid dn => exact nonempty_handleJoinRoom h c reqId roomId pid dn
  | createWebRtcTransport reqId dir =>
    show RoomsNonempty (handleCreateWebRtcTransport s c reqId dir).1
    unfold handleCreateWebRtcTransport
    split
    · exact h
    · split
      · exact h
      · split
        · exact h
        · apply nonempty_updatePeerInRoom (nonempty_bump h _)
  | connectWebRtcTransport reqId dir tid =>
    show RoomsNonempty (handleConnectWebRtcTransport s c reqId dir tid).1
    unfold handleConnectWebRtcTransport
    split
    · exact h
    · split <;> exact h
  | produce reqId kind src =>
    show RoomsNonempty (handleProduce s c reqId kind src).1
    unfold handleProduce
    split
    · exact h
    · split
      · exact h
      · split
        · exact h
        · split
          · exact h
          · apply nonempty_updatePeerInRoom (nonempty_bump h _)
  | consume reqId producerId =>
    show RoomsNonempty (handleConsume s c reqId producerId).1
    unfold handleConsume
    split
    · exact h
    · split
      · exact h
      · split
        · exact h
        · split
          · exact h
          · split
            · exact h
            · apply nonempty_updatePeerInRoom (nonempty_bump h _)
  | pauseProducer reqId producerId =>
    show RoomsNonempty (handlePauseProducer s c reqId producerId).1
    unfold handlePauseProducer
    split
    · exact h
    · split
      · exact h
      · exact nonempty_updatePeerInRoom h _ _ _
  | resumeProducer reqId producerId =>
    show RoomsNonempty (handleResumeProducer s c reqId producerId).1
    unfold handleResumeProducer
    split
    · exact h
    · split
      · exact h
      · exact nonempty_updatePeerInRoom h _ _ _
  | setProducerMuted reqId producerId muted => exact h
  | unknown reqId => exact h

theorem nonempty_step {s : ServerState} (h : RoomsNonempty s) (e : Event)
    (hallow : NoCreateRoom s e) : RoomsNonempty (step s e).1 := by
  cases e with
  | connect c => exact nonempty_of_rooms_eq rfl h
  | request c m => exact nonempty_handleMessage h c m hallow
  | badFrame c => exact h
  | disconnect c =>
    cases hm : s.peerSocketMap c with
    | some pid =>
      have he : step s (Event.disconnect c) =
          cleanupPeer { s with openConns := fun x => if x = c then false else s.openConns x } pid := by
        unfold step
        simp only [hm]
      rw [he]
      exact nonempty_cleanupPeer (nonempty_close h c) pid
    | none =>
      have he : step s (Event.disconnect c) =
          ({ s with openConns := fun x => if x = c then false else s.openConns x }, []) := by
        unfold step
        simp only [hm]
      rw [he]
      exact nonempty_close h c

/-- C5 (amended): for every state reachable by a sequence of handled
requests and connection events that contains no `createRoom` request, a
room id present in the registry has a non-empty peers map (joinRoom
always inserts the joining peer, and `cleanupPeer` removes a room it
empties).  The claim as stated, over all request sequences, is refuted
by `c5_room_liveness_counterexample`: a bare `createRoom` registers a
room with zero peers and nothing ever removes it. -/
theorem c5_room_liveness_nocreate {s : ServerState}
    (h : ReachableUnder NoCreateRoom s) : RoomsNonempty s := by
  induction h with
  | init => intro rid room hrm; exact absurd hrm (by simp [initialState])
  | next e hrec hallow ih => exact nonempty_step ih e hallow

/-- Witness for C5: the state after a connection opens and a peer joins
is reachable without any createRoom request, and every registered room
there is non-empty. -/
theorem c5_room_liveness_nocreate_witness : RoomsNonempty (runTrace c1GoodTrace) :=
  c5_room_liveness_nocreate
    (ReachableUnder.next (Event.request 0 (ClientMsg.joinRoom (some "1") "R" "p1" (some "A")))
      (ReachableUnder.next (Event.connect 0) ReachableUnder.init trivial)
      trivial)

/-- C5 counterexample: after the single handled request
`createRoom{roomId:"X"}` the registry holds room `X` with an empty peers
map, so the claimed iff between registry presence and non-empty peers
fails on a reachable state. -/
theorem c5_room_liveness_counterexample :
    ReachableUnder AnyEvent (runTrace c5Trace) ∧
    (runTrace c5Trace).rooms "X" =
      some { id := "X", router := 0, audioLevelObserver := 1, peers := [] } ∧
    ¬ RoomsNonempty (runTrace c5Trace) := by
  refine ⟨ReachableUnder.next (Event.request 0 (ClientMsg.createRoom (some "1") "X"))
    ReachableUnder.init trivial, by decide, ?_⟩
  intro hne
  exact hne "X" { id := "X", router := 0, audioLevelObserver := 1, peers := [] }
    (by decide) rfl

theorem peerLoc_spec {s : ServerState} {c : ConnId} {rid pid : String} {peer : MyPeer}
    (h : peerLoc s c = some (rid, pid, peer)) :
    s.peerSocketMap c = some pid ∧ s.peerRoomMap pid = some rid ∧
    ∃ room, s.rooms rid = some room ∧ lookupA room.peers pid = some peer := by
  unfold peerLoc at h
  split at h
  · exact Option.noConfusion h
  · rename_i pid0 h1
    split at h
    · exact Option.noConfusion h
    · rename_i rid0 h2
      split at h
      · exact Option.noConfusion h
      · rename_i room0 h3
        split at h
        · exact Option.noConfusion h
        · rename_i peer0 h4
          simp only [Option.some.injEq, Prod.mk.injEq] at h
          obtain ⟨e1, e2, e3⟩ := h
          subst e1
          subst e2
          subst e3
          exact ⟨h1, h2, room0, h3, h4⟩

theorem updatePeerInRoom_lookup {s : ServerState} {rid : String} {room : MyRoom}
    (h : s.rooms rid = some room) (pid : String) (f : MyPeer → MyPeer) :
    (updatePeerInRoom s rid pid f).rooms rid =
      some { room with peers := updateAt room.peers pid f } := by
  unfold updatePeerInRoom
  simp only [h]
  exact setF_self _ _ _

theorem updatePeerInRoom_peerRoomMap (s : ServerState) (rid pid : String)
    (f : MyPeer → MyPeer) :
    (updatePeerInRoom s rid pid f).peerRoomMap = s.peerRoomMap := by
  unfold updatePeerInRoom
  cases h : s.rooms rid <;> rfl

theorem createRoom_new {s : ServerState} {roomId : String}
    (hnone : s.rooms roomId = none) :
    createRoom s roomId =
      ({ s with
          rooms := setF s.rooms roomId
            { id := roomId, router := s.nextId, audioLevelObserver := s.nextId + 1, peers := [] }
          nextId := s.nextId + 2 },
       { id := roomId, router := s.nextId, audioLevelObserver := s.nextId + 1, peers := [] }) := by
  unfold createRoom
  simp only [hnone]

theorem createRoom_cached {s : ServerState} {roomId : String} {room : MyRoom}
    (hroom : s.rooms roomId = some room) : createRoom s roomId = (s, room) := by
  unfold createRoom
  simp only [hroom]

/-- C7: the server has no `setProducerMuted` branch.  For every state
and every `setProducerMuted` request the dispatcher takes the default
branch: it answers with the `pong` frame, mutates nothing, broadcasts
nothing, and no `muted` flag exists on the server's producer record.
This contradicts the claimed contract (set `muted`, broadcast
`producerMuted` to others, respond `success=true`), which the client
code clearly expects; the code, not the claim, is at fault. -/
theorem c7_setProducerMuted_falls_to_default (s : ServerState) (c : ConnId)
    (reqId : Option String) (producerId : Nat) (muted : Bool) :
    handleMessage s c (ClientMsg.setProducerMuted reqId producerId muted) =
      (s, [Output.send c (ServerMsg.pong reqId)]) := rfl

/-- C8: invoking `cleanupPeer` a second time after a completed first
invocation is a no-op: the state (registries, rooms, closed-handle
list) is returned unchanged and no frame is emitted, because the first
invocation deleted the `peerRoomMap` entry (or had already found none),
so the second returns at its first guard. -/
theorem c8_cleanup_idempotent (s : ServerState) (pid : String) :
    cleanupPeer (cleanupPeer s pid).1 pid = ((cleanupPeer s pid).1, []) := by
  cases hm1 : s.peerRoomMap pid with
  | none => rw [cleanupPeer_noop_noRoomMap hm1, cleanupPeer_noop_noRoomMap hm1]
  | some rid =>
    cases hm2 : s.rooms rid with
    | none => rw [cleanupPeer_noop_noRoom hm1 hm2, cleanupPeer_noop_noRoom hm1 hm2]
    | some room =>
      cases hm3 : lookupA room.peers pid with
      | none => rw [cleanupPeer_noop_noPeer hm1 hm2 hm3, cleanupPeer_noop_noPeer hm1 hm2 hm3]
      | some peer =>
        cases hE : (eraseA room.peers pid).isEmpty with
        | true =>
          rw [cleanupPeer_spec_empty hm1 hm2 hm3 (by simpa using hE)]
          apply cleanupPeer_noop_noRoomMap
          exact delF_self _ _
        | false =>
          rw [cleanupPeer_spec_nonempty hm1 hm2 hm3 hE]
          apply cleanupPeer_noop_noRoomMap
          exact delF_self _ _

/-- C9: an unparseable frame is answered with exactly one
`{error: "Invalid JSON"}` frame on the same connection; the state —
rooms, peers, registries, open connections — is returned unchanged, so
the connection stays open and the next frame is handled from the same
state. -/
theorem c9_invalid_json_nonfatal (s : ServerState) (c : ConnId) :
    step s (Event.badFrame c) = (s, [Output.send c (ServerMsg.errorOnly "Invalid JSON")]) := rfl

/-- C2: when `cleanupPeer` resolves the peer and removing it empties the
room, the room's router handle and its audio level observer handle are
both recorded closed (the source calls `room.router.close()`, which in
the media worker also closes every RTP observer created on that router),
and the room is removed from the registry, all before `cleanupPeer`
returns; a subsequent joinRoom for the same room id therefore builds a
brand-new router whose id is the allocator value, distinct from the
closed router's id. -/
theorem c2_empty_room_teardown {s : ServerState} {pid rid : String} {room : MyRoom}
    {peer : MyPeer} (hm1 : s.peerRoomMap pid = some rid)
    (hm2 : s.rooms rid = some room) (hm3 : lookupA room.peers pid = some peer)
    (hE : eraseA room.peers pid = []) (hrtr : room.router < s.nextId)
    (c2 : ConnId) (reqId2 : Option String) (pid2 : String) (dn2 : Option String) :
    room.router ∈ (cleanupPeer s pid).1.closedIds ∧
    room.audioLevelObserver ∈ (cleanupPeer s pid).1.closedIds ∧
    (cleanupPeer s pid).1.rooms rid = none ∧
    ∃ room2,
      (handleJoinRoom (cleanupPeer s pid).1 c2 reqId2 rid pid2 dn2).1.rooms rid = some room2 ∧
      room2.router = s.nextId ∧ room2.router ≠ room.router := by
  rw [cleanupPeer_spec_empty hm1 hm2 hm3 hE]
  have hnone : delF s.rooms rid rid = none := delF_self _ _
  refine ⟨by simp, by simp, hnone, ?_⟩
  rw [handleJoinRoom_rooms]
  rw [createRoom_new hnone]
  exact ⟨_, setF_self _ _ _, rfl, (Nat.ne_of_lt hrtr).symm⟩

/-- Witness for C2: after one peer joins room `R` (router id 0,
observer id 1, allocator at 2), cleaning that peer up closes handles 0
and 1, removes `R`, and a re-join of `R` creates a room whose router id
is 2, distinct from 0. -/
theorem c2_empty_room_teardown_witness :
    0 ∈ (cleanupPeer (runTrace c1GoodTrace) "p1").1.closedIds ∧
    1 ∈ (cleanupPeer (runTrace c1GoodTrace) "p1").1.closedIds ∧
    (cleanupPeer (runTrace c1GoodTrace) "p1").1.rooms "R" = none ∧
    ∃ room2,
      (handleJoinRoom (cleanupPeer (runTrace c1GoodTrace) "p1").1 1 (some "9") "R" "q"
        none).1.rooms "R" = some room2 ∧
      room2.router = 2 ∧ room2.router ≠ 0 :=
  @c2_empty_room_teardown (runTrace c1GoodTrace) "p1" "R" c2RoomR (freshPeer "p1" "A" 0)
    (by decide) (by decide) (by decide) (by decide) (by decide) 1 (some "9") "q" none

/-- C3 (amended): the consume handler resolves `producerId` by searching
the producers of every peer object in the room, the caller included —
there is no not-owned-by-caller check.  Whenever the search finds the
caller's own producer (and the caller has a receive transport), the
handler creates and stores a consumer record whose upstream `peerId`
equals the caller's own id, and answers with a `consumeResponse` naming
the caller as upstream.  The claimed invariant (upstream peer of every
consumer differs from its owner) therefore does not hold; it is refuted
at a concrete input by `c3_no_self_consume_counterexample`. -/
theorem c3_self_consume_allowed {s : ServerState} {c : ConnId} {rid pid : String}
    {peer : MyPeer} {rt producerId : Nat} {rid2 : String} {room2 : MyRoom}
    {myProducer : MyProducer} (reqId : Option String)
    (h1 : peerLoc s c = some (rid, pid, peer))
    (h2 : peer.recvTransport = some rt)
    (h3 : s.peerRoomMap peer.id = some rid2)
    (h4 : s.rooms rid2 = some room2)
    (h5 : findProducer room2.peers producerId = some (peer, myProducer)) :
    ∃ room' peer',
      (handleConsume s c reqId producerId).1.rooms rid = some room' ∧
      lookupA room'.peers pid = some peer' ∧
      lookupA peer'.consumers myProducer.id =
        some { id := s.nextId, peerId := peer.id, producerId := myProducer.id } ∧
      (handleConsume s c reqId producerId).2 =
        [Output.send c (ServerMsg.consumeResponse reqId s.nextId myProducer.id
          myProducer.kind peer.id peer.displayName myProducer.source)] := by
  obtain ⟨hsock, hroomm, room, hroom, hpeer⟩ := peerLoc_spec h1
  have hres : handleConsume s c reqId producerId =
      (updatePeerInRoom { s with nextId := s.nextId + 1 } rid pid
        (fun p =>
          { p with consumers :=
              insertA p.consumers myProducer.id ⟨s.nextId, peer.id, myProducer.id⟩ }),
       [Output.send c (ServerMsg.consumeResponse reqId s.nextId myProducer.id
         myProducer.kind peer.id peer.displayName myProducer.source)]) := by
    unfold handleConsume
    simp only [h1, h2, h3, h4, h5]
  rw [hres]
  have hroomB : ({ s with nextId := s.nextId + 1 } : ServerState).rooms rid = some room := hroom
  refine ⟨{ room with
              peers := updateAt room.peers pid
                (fun p =>
                  { p with
                      consumers := insertA p.consumers myProducer.id
                        ⟨s.nextId, peer.id, myProducer.id⟩ }) },
    { peer with
        consumers := insertA peer.consumers myProducer.id
          ⟨s.nextId, peer.id, myProducer.id⟩ },
    updatePeerInRoom_lookup hroomB pid _, ?_, lookupA_insertA_self _ _ _, rfl⟩
  rw [lookupA_updateAt, if_pos rfl, hpeer]
  rfl

/-- Witness for C3 (amended): in the state after `c3Prefix` (peer `p1`
owns producer 3 and has a receive transport), a consume request from
`p1` for producer 3 succeeds and stores a consumer whose upstream
peerId is `p1` itself. -/
theorem c3_self_consume_allowed_witness :
    ∃ room' peer',
      (handleConsume (runTrace c3Prefix) 0 (some "5") 3).1.rooms "R" = some room' ∧
      lookupA room'.peers "p1" = some peer' ∧
      lookupA peer'.consumers 3 =
        some { id := 5, peerId := "p1", producerId := 3 } ∧
      (handleConsume (runTrace c3Prefix) 0 (some "5") 3).2 =
        [Output.send 0 (ServerMsg.consumeResponse (some "5") 5 3
          MediaKind.audio "p1" "A" ProducerSource.mic)] :=
  @c3_self_consume_allowed (runTrace c3Prefix) 0 "R" "p1" c3PeerMid 4 3 "R" c3RoomMid
    { id := 3, source := ProducerSource.mic, kind := MediaKind.audio, paused := false }
    (some "5") (by decide) (by decide) (by decide) (by decide) (by decide)

/-- C3 counterexample: the state after `c3Trace` (a single peer consuming
its own producer) is reachable by handled requests, yet the no-self-
consume invariant fails: room `R` holds peer `p1` whose consumers map
contains a record with upstream `peerId = "p1"`. -/
theorem c3_no_self_consume_counterexample :
    ReachableUnder AnyEvent (runTrace c3Trace) ∧ ¬ NoSelfConsume (runTrace c3Trace) := by
  constructor
  · exact ReachableUnder.next (Event.request 0 (ClientMsg.consume (some "5") 3))
      (ReachableUnder.next (Event.request 0 (ClientMsg.createWebRtcTransport (some "4") (some "recv")))
        (ReachableUnder.next (Event.request 0 (ClientMsg.produce (some "3") MediaKind.audio (some ProducerSource.mic)))
          (ReachableUnder.next (Event.request 0 (ClientMsg.createWebRtcTransport (some "2") none))
            (ReachableUnder.next (Event.request 0 (ClientMsg.joinRoom (some "1") "R" "p1" (some "A")))
              (ReachableUnder.next (Event.connect 0) ReachableUnder.init trivial)
              trivial)
            trivial)
          trivial)
        trivial)
      trivial
  · intro hno
    have h1 : (runTrace c3Trace).rooms "R" = some c3RoomFinal := by decide
    have h2 := hno "R" c3RoomFinal h1 ("p1", c3PeerFinal) (by decide)
      (3, { id := 5, peerId := "p1", producerId := 3 }) (by decide)
    exact h2 rfl

theorem handleJoinRoom_outputs_shape (s : ServerState) (c : ConnId)
    (reqId : Option String) (roomId pid : String) (dn : Option String) :
    ∃ bs ps prods,
      (handleJoinRoom s c reqId roomId pid dn).2 =
        bs ++ [Output.send c (ServerMsg.joinRoomResponse reqId
          (createRoom s roomId).2.router ps prods)] ∧
      ∀ o ∈ bs, ∃ c', o = Output.send c' (ServerMsg.peerJoined pid (dn.getD "Anonymous")) := by
  refine ⟨_, _, _, rfl, ?_⟩
  intro o ho
  rcases List.mem_map.1 ho with ⟨p, hp, hmap⟩
  exact ⟨p.conn, hmap.symm⟩

/-- C4 (amended): a joinRoom naming a peerId already present in the
room's peers map does not fail and sends no error: the handler emits
only `peerJoined` broadcasts followed by a normal `joinRoomResponse`; it
replaces the room's record for that peerId with a fresh record bound to
the new connection, repoints `peerRoomMap` and binds the new connection
in `peerSocketMap`, leaving every other connection's socket entry (in
particular the previous connection's, now stale) unchanged.  The claim
as stated (PeerIdTaken error, state unchanged) is refuted by
`c4_duplicate_join_counterexample`. -/
theorem c4_duplicate_join_overwrites {s : ServerState} {roomId pid : String}
    {room : MyRoom} {old : MyPeer} (c : ConnId) (reqId : Option String)
    (dn : Option String) (hroom : s.rooms roomId = some room)
    (_hold : lookupA room.peers pid = some old) :
    (∃ bs ps prods,
      (handleJoinRoom s c reqId roomId pid dn).2 =
        bs ++ [Output.send c (ServerMsg.joinRoomResponse reqId room.router ps prods)] ∧
      ∀ o ∈ bs, ∃ c', o = Output.send c' (ServerMsg.peerJoined pid (dn.getD "Anonymous"))) ∧
    (handleJoinRoom s c reqId roomId pid dn).1.rooms roomId =
      some { room with peers := insertA room.peers pid (freshPeer pid (dn.getD "Anonymous") c) } ∧
    (handleJoinRoom s c reqId roomId pid dn).1.peerRoomMap pid = some roomId ∧
    (handleJoinRoom s c reqId roomId pid dn).1.peerSocketMap c = some pid ∧
    ∀ c0, c0 ≠ c →
      (handleJoinRoom s c reqId roomId pid dn).1.peerSocketMap c0 = s.peerSocketMap c0 := by
  have hc : createRoom s roomId = (s, room) := createRoom_cached hroom
  refine ⟨?_, ?_, ?_, ?_, ?_⟩
  · obtain ⟨bs, ps, prods, he, hb⟩ := handleJoinRoom_outputs_shape s c reqId roomId pid dn
    rw [hc] at he
    exact ⟨bs, ps, prods, he, hb⟩
  · rw [handleJoinRoom_rooms, hc]
    exact setF_self _ _ _
  · exact setF_self _ _ _
  · exact setF_self _ _ _
  · intro c0 hc0
    have : (handleJoinRoom s c reqId roomId pid dn).1.peerSocketMap c0 =
        (createRoom s roomId).1.peerSocketMap c0 := setF_ne _ _ _ hc0
    rw [this, hc]

/-- Witness for C4 (amended): in the state after `c4Prefix` (peer `p1`
on connection 0 in room `R`), a joinRoom for the taken peerId `p1` from
connection 1 succeeds, replaces the record, repoints the registries to
connection 1 and leaves connection 0's stale socket entry. -/
theorem c4_duplicate_join_overwrites_witness :
    (∃ bs ps prods,
      (handleJoinRoom (runTrace c4Prefix) 1 (some "2") "R" "p1" (some "B")).2 =
        bs ++ [Output.send 1 (ServerMsg.joinRoomResponse (some "2") c2RoomR.router ps prods)] ∧
      ∀ o ∈ bs, ∃ c', o = Output.send c' (ServerMsg.peerJoined "p1" ((some "B").getD "Anonymous"))) ∧
    (handleJoinRoom (runTrace c4Prefix) 1 (some "2") "R" "p1" (some "B")).1.rooms "R" =
      some { c2RoomR with
               peers := insertA c2RoomR.peers "p1"
                 (freshPeer "p1" ((some "B").getD "Anonymous") 1) } ∧
    (handleJoinRoom (runTrace c4Prefix) 1 (some "2") "R" "p1" (some "B")).1.peerRoomMap "p1" =
      some "R" ∧
    (handleJoinRoom (runTrace c4Prefix) 1 (some "2") "R" "p1" (some "B")).1.peerSocketMap 1 =
      some "p1" ∧
    ∀ c0, c0 ≠ 1 →
      (handleJoinRoom (runTrace c4Prefix) 1 (some "2") "R" "p1" (some "B")).1.peerSocketMap c0 =
        (runTrace c4Prefix).peerSocketMap c0 :=
  @c4_duplicate_join_overwrites (runTrace c4Prefix) "R" "p1" c2RoomR
    (freshPeer "p1" "A" 0) 1 (some "2") (some "B") (by decide) (by decide)

/-- C4 counterexample: after `c4Prefix`, handling the duplicate join
`c4Dup` yields a reachable state; the handler's only output is a
successful `joinRoomResponse` (no PeerIdTaken or any error frame), the
room's record for `p1` now carries connection 1 and display name `B`
(so the room and registries did change), and connection 0's stale
socket entry still maps to `p1`. -/
theorem c4_duplicate_join_counterexample :
    ReachableUnder AnyEvent (step (runTrace c4Prefix) c4Dup).1 ∧
    (step (runTrace c4Prefix) c4Dup).2 =
      [Output.send 1 (ServerMsg.joinRoomResponse (some "2") 0 [] [])] ∧
    (step (runTrace c4Prefix) c4Dup).1.rooms "R" =
      some { id := "R", router := 0, audioLevelObserver := 1,
             peers := [("p1", freshPeer "p1" "B" 1)] } ∧
    (step (runTrace c4Prefix) c4Dup).1.peerSocketMap 0 = some "p1" := by
  refine ⟨?_, by decide, by decide, by decide⟩
  exact ReachableUnder.next c4Dup
    (ReachableUnder.next (Event.connect 1)
      (ReachableUnder.next (Event.request 0 (ClientMsg.joinRoom (some "1") "R" "p1" (some "A")))
        (ReachableUnder.next (Event.connect 0) ReachableUnder.init trivial)
        trivial)
      trivial)
    trivial

/-- C6 (amended): for `produce`, the response frame is emitted first and
the `newProducer` broadcasts to the other open peers follow it; for
`joinRoom` the order is the reverse of the claim: every `peerJoined`
broadcast is emitted before the `joinRoomResponse` frame, which comes
last.  The claim as stated (broadcast only after the response, for both
request kinds) is refuted by `c6_response_broadcast_order_counterexample`. -/
theorem c6_response_broadcast_order {s : ServerState} {c : ConnId} {rid pid : String}
    {peer : MyPeer} {st : Nat} {rid2 : String} {room2 : MyRoom}
    (reqId : Option String) (kind : MediaKind) (src : Option ProducerSource)
    (h1 : peerLoc s c = some (rid, pid, peer))
    (h2 : peer.sendTransport = some st)
    (h3 : s.peerRoomMap peer.id = some rid2)
    (h4 : s.rooms rid2 = some room2) :
    ((handleProduce s c reqId kind src).2 =
      Output.send c (ServerMsg.produceResponse reqId s.nextId) ::
        (otherOpenPeers room2.peers peer.id s.openConns).map
          (fun p => Output.send p.conn (ServerMsg.newProducer
            ⟨s.nextId, peer.id, kind,
             src.getD (if kind = MediaKind.audio then ProducerSource.mic else ProducerSource.webcam),
             peer.displayName⟩))) ∧
    ∀ (s0 : ServerState) (c0 : ConnId) (reqId0 : Option String) (roomId0 pid0 : String)
      (dn0 : Option String),
      ∃ bs ps prods,
        (handleJoinRoom s0 c0 reqId0 roomId0 pid0 dn0).2 =
          bs ++ [Output.send c0 (ServerMsg.joinRoomResponse reqId0
            (createRoom s0 roomId0).2.router ps prods)] ∧
        ∀ o ∈ bs, ∃ c', o = Output.send c' (ServerMsg.peerJoined pid0 (dn0.getD "Anonymous")) := by
  constructor
  · unfold handleProduce
    simp only [h1, h2, h3, h4]
  · exact fun s0 c0 reqId0 roomId0 pid0 dn0 =>
      handleJoinRoom_outputs_shape s0 c0 reqId0 roomId0 pid0 dn0

/-- Witness for C6 (amended): in the state after `c6ProdTrace`, peer
`p1` produces audio; the handler emits the response frame first (here it
is the only frame, the room having no other peer), and the joinRoom
order statement is instantiated as well. -/
theorem c6_response_broadcast_order_witness :
    ((handleProduce (runTrace c6ProdTrace) 0 (some "9") MediaKind.audio
        (some ProducerSource.mic)).2 =
      [Output.send 0 (ServerMsg.produceResponse (some "9") 3)]) ∧
    ∀ (s0 : ServerState) (c0 : ConnId) (reqId0 : Option String) (roomId0 pid0 : String)
      (dn0 : Option String),
      ∃ bs ps prods,
        (handleJoinRoom s0 c0 reqId0 roomId0 pid0 dn0).2 =
          bs ++ [Output.send c0 (ServerMsg.joinRoomResponse reqId0
            (createRoom s0 roomId0).2.router ps prods)] ∧
        ∀ o ∈ bs, ∃ c', o = Output.send c' (ServerMsg.peerJoined pid0 (dn0.getD "Anonymous")) :=
  @c6_response_broadcast_order (runTrace c6ProdTrace) 0 "R" "p1" c6PeerSend 2 "R" c6RoomSend
    (some "9") MediaKind.audio (some ProducerSource.mic)
    (by decide) (by decide) (by decide) (by decide)

/-- C6 counterexample: with `p1` already in room `R` (a reachable
state), handling `p2`'s joinRoom emits the `peerJoined` broadcast to
`p1` as the first frame and the `joinRoomResponse` to `p2` after it, so
the broadcast caused by the request is emitted before the request's
response, contrary to the claim. -/
theorem c6_response_broadcast_order_counterexample :
    ReachableUnder AnyEvent (runTrace c6Prefix) ∧
    (step (runTrace c6Prefix) c6Join).2 =
      [Output.send 0 (ServerMsg.peerJoined "p2" "B"),
       Output.send 1 (ServerMsg.joinRoomResponse (some "2") 0
         [{ id := "p1", displayName := "A", connectionState := ConnState.connected }] [])] := by
  refine ⟨?_, by decide⟩
  exact ReachableUnder.next (Event.connect 1)
    (ReachableUnder.next (Event.request 0 (ClientMsg.joinRoom (some "1") "R" "p1" (some "A")))
      (ReachableUnder.next (Event.connect 0) ReachableUnder.init trivial)
      trivial)
    trivial

/-- C10: transport slot selection is by the direction string alone.  For
`createWebRtcTransport`, the new transport is stored in the receive slot
exactly when the request's direction field equals `some "recv"`; any
other value, or a missing field, stores it in the send slot and leaves
the receive slot untouched.  For `connectWebRtcTransport`, the handler
is literally independent of the `transportId` field of the request, and
the transport it connects is the slot selected by the direction test, so
it may connect a transport other than the one the client names. -/
theorem c10_direction_only_selection {s : ServerState} {c : ConnId} {rid pid : String}
    {peer : MyPeer} {rid2 : String} {room2 : MyRoom} (reqId : Option String)
    (h1 : peerLoc s c = some (rid, pid, peer))
    (h5 : s.peerRoomMap peer.id = some rid2)
    (h6 : s.rooms rid2 = some room2) :
    (∀ dir : Option String, dir ≠ some "recv" →
      ∃ room' peer',
        (handleCreateWebRtcTransport s c reqId dir).1.rooms rid = some room' ∧
        lookupA room'.peers pid = some peer' ∧
        peer'.sendTransport = some s.nextId ∧
        peer'.recvTransport = peer.recvTransport ∧
        (handleCreateWebRtcTransport s c reqId dir).2 =
          [Output.send c (ServerMsg.createWebRtcTransportResponse reqId s.nextId)]) ∧
    (∃ room' peer',
      (handleCreateWebRtcTransport s c reqId (some "recv")).1.rooms rid = some room' ∧
      lookupA room'.peers pid = some peer' ∧
      peer'.recvTransport = some s.nextId ∧
      peer'.sendTransport = peer.sendTransport ∧
      (handleCreateWebRtcTransport s c reqId (some "recv")).2 =
        [Output.send c (ServerMsg.createWebRtcTransportResponse reqId s.nextId)]) ∧
    (∀ (dir : Option String) (t1 t2 : Option Nat),
      handleMessage s c (ClientMsg.connectWebRtcTransport reqId dir t1) =
        handleMessage s c (ClientMsg.connectWebRtcTransport reqId dir t2)) ∧
    (∀ (dir : Option String) (tid : Option Nat) (t : Nat),
      (dir ≠ some "recv" → peer.sendTransport = some t →
        (handleConnectWebRtcTransport s c reqId dir tid).2 =
          [Output.connectTransport t,
           Output.send c (ServerMsg.connectWebRtcTransportResponse reqId true)]) ∧
      (dir = some "recv" → peer.recvTransport = some t →
        (handleConnectWebRtcTransport s c reqId dir tid).2 =
          [Output.connectTransport t,
           Output.send c (ServerMsg.connectWebRtcTransportResponse reqId true)])) := by
  obtain ⟨hsock, hroomm, room, hroom, hpeer⟩ := peerLoc_spec h1
  have hroomB : ({ s with nextId := s.nextId + 1 } : ServerState).rooms rid = some room := hroom
  refine ⟨?_, ?_, ?_, ?_⟩
  · intro dir hdir
    have hres : handleCreateWebRtcTransport s c reqId dir =
        (updatePeerInRoom { s with nextId := s.nextId + 1 } rid pid
          (fun p =>
            if dir = some "recv" then { p with recvTransport := some s.nextId }
            else { p with sendTransport := some s.nextId }),
         [Output.send c (ServerMsg.createWebRtcTransportResponse reqId s.nextId)]) := by
      unfold handleCreateWebRtcTransport
      simp only [h1, h5, h6]
    rw [hres]
    refine ⟨_, { peer with sendTransport := some s.nextId },
      updatePeerInRoom_lookup hroomB pid _, ?_, rfl, rfl, rfl⟩
    rw [lookupA_updateAt, if_pos rfl, hpeer]
    simp only [if_neg hdir]
    rfl
  · have hres : handleCreateWebRtcTransport s c reqId (some "recv") =
        (updatePeerInRoom { s with nextId := s.nextId + 1 } rid pid
          (fun p =>
            if (some "recv" : Option String) = some "recv" then
              { p with recvTransport := some s.nextId }
            else { p with sendTransport := some s.nextId }),
         [Output.send c (ServerMsg.createWebRtcTransportResponse reqId s.nextId)]) := by
      unfold handleCreateWebRtcTransport
      simp only [h1, h5, h6]
    rw [hres]
    refine ⟨_, { peer with recvTransport := some s.nextId },
      updatePeerInRoom_lookup hroomB pid _, ?_, rfl, rfl, rfl⟩
    rw [lookupA_updateAt, if_pos rfl, hpeer]
    rfl
  · intro dir t1 t2
    rfl
  · intro dir tid t
    constructor
    · intro hdir ht
      unfold handleConnectWebRtcTransport
      simp only [h1, if_neg hdir, ht]
    · intro hdir ht
      unfold handleConnectWebRtcTransport
      simp only [h1, if_pos hdir, ht]

/-- Witness for C10: in the state after `c6ProdTrace` (allocator at 3,
peer `p1` holding send transport 2), a createWebRtcTransport whose
direction is the string `"weird"` stores the new transport (id 3) in
the send slot and leaves the receive slot empty; and a
connectWebRtcTransport with no direction that names `transportId = 99`
nevertheless connects transport 2 — the send-slot transport — showing
the named transport is ignored. -/
theorem c10_direction_only_selection_witness :
    (∃ room' peer',
      (handleCreateWebRtcTransport (runTrace c6ProdTrace) 0 (some "7")
        (some "weird")).1.rooms "R" = some room' ∧
      lookupA room'.peers "p1" = some peer' ∧
      peer'.sendTransport = some 3 ∧
      peer'.recvTransport = none ∧
      (handleCreateWebRtcTransport (runTrace c6ProdTrace) 0 (some "7") (some "weird")).2 =
        [Output.send 0 (ServerMsg.createWebRtcTransportResponse (some "7") 3)]) ∧
    (handleConnectWebRtcTransport (runTrace c6ProdTrace) 0 (some "7") none (some 99)).2 =
      [Output.connectTransport 2,
       Output.send 0 (ServerMsg.connectWebRtcTransportResponse (some "7") true)] :=
  ⟨(@c10_direction_only_selection (runTrace c6ProdTrace) 0 "R" "p1" c6PeerSend "R"
      c6RoomSend (some "7") (by decide) (by decide) (by decide)).1 (some "weird") (by decide),
   ((@c10_direction_only_selection (runTrace c6ProdTrace) 0 "R" "p1" c6PeerSend "R"
      c6RoomSend (some "7") (by decide) (by decide) (by decide)).2.2.2 none (some 99) 2).1
     (by decide) (by decide)⟩
